import Mathlib

/-!
Verification development for the BSA assembler language-server core
(`src/server/src/bsa_lex.ts` and `src/server/src/bsa_parse.ts`).

The TypeScript sources are shallowly embedded below.  Conventions:

* A line of text is a `List Char`; character offsets are `Nat`.
  JavaScript `charAt(i)` returning the empty string out of range is
  modelled by `charAt : List Char → Nat → Option Char`.
* The source field `end` (on tokens, ranges and the lexer) is named
  `stop` here because `end` is a reserved word in Lean.
* The sticky regular expressions of the lexer are hand-translated into
  explicit match-length functions.  `\p{Letter}` is modelled by ASCII
  letters (`Char.isAlpha`), which agrees with JavaScript on all ASCII
  input.
* Loops are written with an explicit fuel parameter large enough for
  the loop to run to completion (each iteration strictly advances a
  cursor that is bounded by the input length, so the chosen fuel is
  never exhausted); a fuel of zero returns the state unchanged.
* A JavaScript `TypeError` caused by reading a property of `undefined`
  (reading `tokens[i]` out of bounds) is modelled by a `crashed` flag
  on the parser state; `parseLine` returns `none` when the flag is set,
  mirroring the exception escaping `parseLine`.
-/

/-! ## Diagnostics (vscode-languageserver data shapes) -/

inductive DiagnosticSeverity where
  | Error
  | Warning
  | Information
deriving DecidableEq, Repr

structure DiagPos where
  line : Nat
  character : Nat
deriving DecidableEq, Repr

structure DiagRange where
  start : DiagPos
  stop : DiagPos
deriving DecidableEq, Repr

structure Diagnostic where
  severity : DiagnosticSeverity
  range : DiagRange
  message : String
deriving DecidableEq, Repr

/-! ## Lexer data model (`bsa_lex.ts`) -/

inductive TokenType where
  | LiteralString
  | LiteralNumber
  | Name
  | Keyword
  | Operator
  | Opcode
  | RestOfLine
deriving DecidableEq, Repr

structure Tok where
  type : TokenType
  lineNumber : Nat
  start : Nat
  stop : Nat
  normText : Option String
deriving DecidableEq, Repr

structure LexerResult where
  tokens : List Tok
  diagnostics : List Diagnostic
deriving DecidableEq, Repr

/-- The fixed keyword table of `bsa_lex.ts`. -/
def keywords : List String :=
  ["#if", "#ifdef", "#else", "#endif", "#error", "macro", "endmac",
   ".word", ".bigw", ".hex4", ".dec4", ".wor", ".byte", ".byt", ".pet",
   ".disp", ".bhex", ".lits", ".quad", ".real", ".real4", ".fill", ".bss",
   ".store", ".cpu", ".base", ".org", ".load", ".include", ".size", ".ski",
   ".pag", ".nam", ".subttl", ".end", ".case", "!src", "!addr",
   "module"]

/-- The fixed opcode table of `bsa_lex.ts`. -/
def opcodes : List String :=
  ["adc", "adcq", "and", "andq", "asl", "aslq", "asr", "asrq", "asw",
   "bbr0", "bbr1", "bbr2", "bbr3", "bbr4", "bbr5", "bbr6", "bbr7",
   "bbs0", "bbs1", "bbs2", "bbs3", "bbs4", "bbs5", "bbs6", "bbs7",
   "bcc", "bcs", "beq", "bmi", "bne", "bpl", "bvc", "bvs", "bit",
   "bitq", "bra", "brk", "bsr", "clc", "cld", "cle", "cli", "clv",
   "cmp", "cmpq", "cpx", "cpy", "cpz", "dec", "deq", "dew",
   "dex", "dey", "dez", "eom", "eor", "eorq", "inc",
   "inq", "inw", "inx", "iny", "inz", "jmp", "jsr", "lda",
   "ldq", "ldx", "ldy", "ldz", "lsr", "lsrq", "map",
   "neg", "ora", "orq", "pha", "pla", "phx", "plx", "phy", "ply",
   "phz", "plz", "php", "phw", "plp",
   "rmb0", "rmb1", "rmb2", "rmb3", "rmb4", "rmb5", "rmb6", "rmb7",
   "rol", "ror", "rolq", "rorq", "row", "rti", "rts", "sbc",
   "sbcq", "sec", "sed", "see", "sei",
   "smb0", "smb1", "smb2", "smb3", "smb4", "smb5", "smb6", "smb7",
   "sta", "stq", "stx", "sty", "stz", "tab", "tax", "txa",
   "tay", "tya", "taz", "tza", "tba", "tsx", "tsy", "trb", "tsb",
   "txs", "tys",
   "nop", "aug", "bru", "ina", "dea",
   "phd", "tcs", "pld", "tsa", "tsc", "wdm", "mvp", "phk", "mvn",
   "tcd", "rtl", "tdc", "phb", "plb", "tyx", "wai", "stp", "swa",
   "xba", "xce",
   "lbpl", "lbmi", "lbvc", "lbvs", "lbcc", "lbcs", "lbne", "lbeq",
   "lbra", "lbru", "lbsr"]

/-- Operator tokens, in longest-to-shortest match order (`bsa_lex.ts`). -/
def operators : List String :=
  ["==", "!=", ">=", "<=", ">>", "<<", "&&", "||",
   ":", "^", "<", ">", "(", ")", "[", "]", "+", "-",
   "*", "/", "!", "~", "&", "|", "^", ",", "#", "="]

/-- `charAt`: `text.charAt(i)`, with `none` for an out-of-range index
(JavaScript returns the empty string there). -/
def charAt (text : List Char) (i : Nat) : Option Char :=
  text.get? i

/-- The character class `\s` of JavaScript regular expressions. -/
def isJsSpace (c : Char) : Bool :=
  c = ' ' || c = '\t' || c = '\n' || c.val = 11 || c.val = 12 || c = '\r' ||
  c.val = 0xa0 || c.val = 0x1680 || (0x2000 ≤ c.val && c.val ≤ 0x200a) ||
  c.val = 0x2028 || c.val = 0x2029 || c.val = 0x202f || c.val = 0x205f ||
  c.val = 0x3000 || c.val = 0xfeff

/-- The character class `\w` (`[A-Za-z0-9_]`). -/
def isWordChar (c : Char) : Bool :=
  c.isAlpha || c.isDigit || c = '_'

/-- First character of a name: `\p{Letter}` (ASCII here) or `_`. -/
def isNameStart (c : Char) : Bool :=
  c.isAlpha || c = '_'

/-- Subsequent name characters: `[\w.]`. -/
def isNameTail (c : Char) : Bool :=
  isWordChar c || c = '.'

def isHexDigit (c : Char) : Bool :=
  c.isDigit || ('a' ≤ c.toLower && c.toLower ≤ 'f')

def isBinDigit (c : Char) : Bool :=
  c = '0' || c = '1'

def isOctDigit (c : Char) : Bool :=
  '0' ≤ c && c ≤ '7'

/-- Length of the maximal run of characters satisfying `f`. -/
def countWhile (f : Char → Bool) : List Char → Nat
  | [] => 0
  | c :: cs => if f c then countWhile f cs + 1 else 0

/-- Length of the maximal run of characters satisfying `f` starting at `pos`. -/
def countFrom (text : List Char) (pos : Nat) (f : Char → Bool) : Nat :=
  countWhile f (text.drop pos)

/-- `\s*` match length at `pos`. -/
def spaceLenAt (text : List Char) (pos : Nat) : Nat :=
  countFrom text pos isJsSpace

/-- Case-sensitive literal match: `kw` occurs verbatim at the head of `cs`. -/
def litPrefix : List Char → List Char → Bool
  | [], _ => true
  | _ :: _, [] => false
  | k :: ks, c :: cs => k = c && litPrefix ks cs

/-- Case-insensitive literal match (the `i` regex flag). -/
def ciPrefix : List Char → List Char → Bool
  | [], _ => true
  | _ :: _, [] => false
  | k :: ks, c :: cs => k.toLower = c.toLower && ciPrefix ks cs

/-- `\b` after a word character: the next character is absent or not a
word character. -/
def wordBoundaryAt (text : List Char) (pos : Nat) : Bool :=
  match charAt text pos with
  | none => true
  | some c => !(isWordChar c)

/-- Match of the sticky pattern `kw + "\\b"` with the `i` flag at `pos`
(used for keywords and opcodes; every table entry ends in a word
character, so the boundary reduces to the next character). -/
def matchKeywordAt (kw : String) (text : List Char) (pos : Nat) : Bool :=
  ciPrefix kw.data (text.drop pos) && wordBoundaryAt text (pos + kw.length)

/-- Match of the sticky pattern `kw` (no boundary, no `i` flag) at `pos`
(used for operators). -/
def matchOperatorAt (kw : String) (text : List Char) (pos : Nat) : Bool :=
  litPrefix kw.data (text.drop pos)

/-- Match length of the name pattern
`(\*|&|([\p{Letter}_][\w.]*)|(\d+\$))` at `pos`, or `none`. -/
def nameMatchLen (text : List Char) (pos : Nat) : Option Nat :=
  match charAt text pos with
  | none => none
  | some c =>
    if c = '*' then some 1
    else if c = '&' then some 1
    else if isNameStart c then some (1 + countFrom text (pos + 1) isNameTail)
    else if c.isDigit then
      if charAt text (pos + countFrom text pos Char.isDigit) = some '$' then
        some (countFrom text pos Char.isDigit + 1)
      else none
    else none

/-- Match length of the number pattern
`(\$[0-9a-f]+)|(%[01]+)|(@[0-7]+)|([0-9]+\.[0-9]*)|(\.[0-9]+)|([0-9]+)`
(with the `i` flag) at `pos`, or `none`. -/
def numberMatchLen (text : List Char) (pos : Nat) : Option Nat :=
  match charAt text pos with
  | none => none
  | some c =>
    if c = '$' then
      if countFrom text (pos + 1) isHexDigit > 0 then
        some (1 + countFrom text (pos + 1) isHexDigit)
      else none
    else if c = '%' then
      if countFrom text (pos + 1) isBinDigit > 0 then
        some (1 + countFrom text (pos + 1) isBinDigit)
      else none
    else if c = '@' then
      if countFrom text (pos + 1) isOctDigit > 0 then
        some (1 + countFrom text (pos + 1) isOctDigit)
      else none
    else if c = '.' then
      if countFrom text (pos + 1) Char.isDigit > 0 then
        some (1 + countFrom text (pos + 1) Char.isDigit)
      else none
    else if c.isDigit then
      if charAt text (pos + countFrom text pos Char.isDigit) = some '.' then
        some (countFrom text pos Char.isDigit + 1 +
          countFrom text (pos + countFrom text pos Char.isDigit + 1)
            Char.isDigit)
      else some (countFrom text pos Char.isDigit)
    else none

/-- Match of the star-comment pattern `\s*\*(?!\s*=).*` at position 0:
after the leading whitespace comes `*`, and the first character after
the following whitespace is not `=`. -/
def starCommentMatches (text : List Char) : Bool :=
  let w := spaceLenAt text 0
  charAt text w = some '*' &&
    !(charAt text (w + 1 + spaceLenAt text (w + 1)) = some '=')

/-- The mutable lexer object of `bsa_lex.ts` (`text`, `lineNumber`,
cursor `start`/`end`, accumulated `tokens` and `diagnostics`).  The
source field `end` is named `stop`. -/
structure Lexer where
  text : List Char
  lineNumber : Nat
  start : Nat
  stop : Nat
  tokens : List Tok
  diagnostics : List Diagnostic
deriving DecidableEq, Repr

/-- `startLex`: set `start := end`, then skip whitespace (the sticky
`\s*` match fails only when the cursor is past the end of the text). -/
def Lexer.startLex (s : Lexer) : Lexer :=
  let s := { s with start := s.stop }
  if s.start ≤ s.text.length then
    let n := spaceLenAt s.text s.start
    { s with stop := s.start + n, start := s.start + n }
  else s

def Lexer.isActive (s : Lexer) : Bool :=
  s.stop = s.start

def Lexer.isDone (s : Lexer) : Bool :=
  s.stop = s.text.length

def Lexer.addDiagnostic (s : Lexer) (message : String)
    (severity : DiagnosticSeverity) : Lexer :=
  { s with diagnostics := s.diagnostics ++
      [{ severity := severity,
         range := { start := { line := s.lineNumber, character := s.start },
                    stop := { line := s.lineNumber, character := s.stop } },
         message := message }] }

def Lexer.addWarning (s : Lexer) (message : String) : Lexer :=
  s.addDiagnostic message DiagnosticSeverity.Warning

def Lexer.addError (s : Lexer) (message : String) : Lexer :=
  s.addDiagnostic message DiagnosticSeverity.Error

def Lexer.addToken (s : Lexer) (type : TokenType)
    (normText : Option String) : Lexer :=
  { s with tokens := s.tokens ++
      [{ type := type, lineNumber := s.lineNumber,
         start := s.start, stop := s.stop, normText := normText }] }

/-- `lexStarComment`: if the whole line is a star comment, consume it. -/
def lexStarComment (s : Lexer) : Lexer :=
  if starCommentMatches s.text then { s with stop := s.text.length } else s

/-- `lexLineComment`: `;` consumes the rest of the line, no token. -/
def lexLineComment (s : Lexer) : Lexer :=
  if charAt s.text s.start = some ';' then { s with stop := s.text.length }
  else s

/-- The scanning loop of `lexStringLiteral`: starting at offset `e`
(just past the opening quote), walk to the closing quote `q`, skipping
a character after each backslash and collecting the content characters.
Returns `(sawEndQuote, final cursor, collected characters)`.  A
backslash as the final character pushes JavaScript's empty
`charAt` result (dropped here) and leaves the cursor at `length + 1`. -/
def lexStrLoop (text : List Char) (q : Char) :
    Nat → Nat → List Char → Bool × Nat × List Char
  | 0, e, acc => (false, e, acc)
  | fuel + 1, e, acc =>
    if e < text.length then
      if charAt text e = some q then (true, e + 1, acc)
      else if charAt text e = some '\\' then
        lexStrLoop text q fuel (e + 2) (acc ++ (charAt text (e + 1)).toList)
      else
        lexStrLoop text q fuel (e + 1) (acc ++ (charAt text e).toList)
    else (false, e, acc)

/-- `lexStringLiteral` of `bsa_lex.ts`. -/
def lexStringLiteral (s : Lexer) : Lexer :=
  if !s.isActive then s
  else
    match charAt s.text s.start with
    | some c =>
      if c = '\'' || c = '"' then
        let r := lexStrLoop s.text c (s.text.length + 1) (s.stop + 1) []
        let s1 := { s with stop := r.2.1 }
        let s2 :=
          if r.1 then s1
          else s1.addWarning "Unterminated string literal goes to end of line"
        s2.addToken TokenType.LiteralString (some r.2.2.asString)
      else s
    | none => s

/-- `lexKeyword` of `bsa_lex.ts`: first table entry that matches, with
the special `.bhex` / `#error` rest-of-line capture. -/
def lexKeyword (s : Lexer) : Lexer :=
  if !s.isActive then s
  else
    match keywords.find? (fun kw => matchKeywordAt kw s.text s.start) with
    | none => s
    | some kw =>
      let s1 := { s with stop := s.start + kw.length }
      let s2 := s1.addToken TokenType.Keyword (some kw)
      if kw = ".bhex" || kw = "#error" then
        let s3 := { s2 with start := s2.stop, stop := s2.text.length }
        s3.addToken TokenType.RestOfLine none
      else s2

/-- `lexOpcode` of `bsa_lex.ts`. -/
def lexOpcode (s : Lexer) : Lexer :=
  if !s.isActive then s
  else
    match opcodes.find? (fun kw => matchKeywordAt kw s.text s.start) with
    | none => s
    | some kw =>
      let s1 := { s with stop := s.start + kw.length }
      s1.addToken TokenType.Opcode (some kw)

/-- `lexOperator` of `bsa_lex.ts`. -/
def lexOperator (s : Lexer) : Lexer :=
  if !s.isActive then s
  else
    match operators.find? (fun kw => matchOperatorAt kw s.text s.start) with
    | none => s
    | some kw =>
      let s1 := { s with stop := s.start + kw.length }
      s1.addToken TokenType.Operator (some kw)

/-- Substring of `text` from `pos` of length `n`, as a `String`. -/
def subStr (text : List Char) (pos n : Nat) : String :=
  ((text.drop pos).take n).asString

/-- `lexName` of `bsa_lex.ts`; `normText` is the matched substring. -/
def lexName (s : Lexer) : Lexer :=
  if !s.isActive then s
  else
    match nameMatchLen s.text s.start with
    | none => s
    | some n =>
      let s1 := { s with stop := s.start + n }
      s1.addToken TokenType.Name (some (subStr s.text s.start n))

/-- `lexNumber` of `bsa_lex.ts` (no `normText`). -/
def lexNumber (s : Lexer) : Lexer :=
  if !s.isActive then s
  else
    match numberMatchLen s.text s.start with
    | none => s
    | some n =>
      let s1 := { s with stop := s.start + n }
      s1.addToken TokenType.LiteralNumber none

/-- One iteration of the `lexLine` loop body (the chained calls
`startLex().lexLineComment()...lexNumber()`). -/
def lexStep (s : Lexer) : Lexer :=
  lexNumber (lexName (lexOperator (lexKeyword (lexOpcode
    (lexStringLiteral (lexLineComment s.startLex))))))

/-- The `while (!results.isDone())` loop of `lexLine`; an iteration that
consumes nothing emits the lexical `Syntax error` and stops. -/
def lexLoop : Nat → Lexer → Lexer
  | 0, s => s
  | fuel + 1, s =>
    if s.isDone then s
    else
      let s1 := lexStep s
      if s1.isActive then s1.addError "Syntax error"
      else lexLoop fuel s1

/-- The final lexer state produced by `lexLine text lineNumber`.  Every
completed iteration strictly advances the cursor, which never exceeds
`text.length + 1`, so the fuel is never exhausted. -/
def lexLineState (text : List Char) (lineNumber : Nat) : Lexer :=
  let s0 : Lexer :=
    { text := text, lineNumber := lineNumber, start := 0, stop := 0,
      tokens := [], diagnostics := [] }
  lexLoop (text.length + 3) (lexStarComment s0.startLex)

/-- `lexLine` of `bsa_lex.ts`. -/
def lexLine (text : List Char) (lineNumber : Nat) : LexerResult :=
  let s := lexLineState text lineNumber
  { tokens := s.tokens, diagnostics := s.diagnostics }


/-! ## Parser data model (`bsa_parse.ts`) -/

/-- Unary operators accepted at the head of an expression. -/
def unaryOperators : List String :=
  ["+", "-", "!", "~", "<", ">"]

/-- Binary operators folded by the expression parser. -/
def binaryOperators : List String :=
  ["==", "!=", ">=", "<=", ">>", "<<", "&&", "||",
   "+", "-", "*", "/", "&", "|", "^"]

/-- The priority table `binaryOperatorPriorites` (sic) of
`bsa_parse.ts`.  Every member of `binaryOperators` has an entry, so the
default value is never read by the parser. -/
def binaryOperatorPriorites (key : String) : Nat :=
  if key = "*" then 11 else if key = "/" then 11
  else if key = "+" then 10 else if key = "-" then 10
  else if key = "<<" then 9 else if key = ">>" then 9
  else if key = "<=" then 8 else if key = "<" then 8
  else if key = ">=" then 8 else if key = ">" then 8
  else if key = "==" then 7 else if key = "!=" then 7
  else if key = "&" then 6 else if key = "^" then 5
  else if key = "|" then 4 else if key = "&&" then 3
  else if key = "||" then 2 else 0

/-- The result record returned by `parseLine` (`ParserResult` in
`bsa_parse.ts`).  A JavaScript `Map` keyed by strings is modelled as an
association list in insertion order. -/
structure ParserResult where
  diagnostics : List Diagnostic
  symbolDefinitions : List Tok
  symbolUses : List (String × List Tok)
  macroDefinitions : List Tok
  macroUses : List (String × List Tok)
deriving DecidableEq, Repr

/-- `Map.has`. -/
def jsMapHas (m : List (String × List Tok)) (k : String) : Bool :=
  m.any (fun e => e.1 = k)

/-- `Map.get` (`undefined` is `none`). -/
def jsMapGet (m : List (String × List Tok)) (k : String) : Option (List Tok) :=
  (m.find? (fun e => e.1 = k)).map (fun e => e.2)

/-- `Map.set`: replace the value in place when the key exists, append
the entry otherwise (JavaScript `Map` insertion-order semantics). -/
def jsMapSet (m : List (String × List Tok)) (k : String) (v : List Tok) :
    List (String × List Tok) :=
  if jsMapHas m k then m.map (fun e => if e.1 = k then (e.1, v) else e)
  else m ++ [(k, v)]

/-- `map.get(k)?.push(tok)`: append `tok` to the list stored at `k`
(no effect when the key is absent, mirroring the optional chaining). -/
def jsMapPush (m : List (String × List Tok)) (k : String) (tok : Tok) :
    List (String × List Tok) :=
  m.map (fun e => if e.1 = k then (e.1, e.2 ++ [tok]) else e)

/-- `mergeParserResultsLeft` of `bsa_parse.ts`: list fields are
concatenated; each entry of the second map is written into the first
map with `Map.set` (`second.symbolUses.forEach((v, k) =>
first.symbolUses.set(k, v))`), in insertion order. -/
def mergeParserResultsLeft (first second : ParserResult) : ParserResult :=
  { diagnostics := first.diagnostics ++ second.diagnostics,
    symbolDefinitions := first.symbolDefinitions ++ second.symbolDefinitions,
    macroDefinitions := first.macroDefinitions ++ second.macroDefinitions,
    symbolUses := second.symbolUses.foldl (fun m e => jsMapSet m e.1 e.2)
      first.symbolUses,
    macroUses := second.macroUses.foldl (fun m e => jsMapSet m e.1 e.2)
      first.macroUses }

/-- The mutable `Parser` object of `bsa_parse.ts`.  `crashed` records
that the JavaScript code dereferenced a property of `undefined` (see
the file header). -/
structure Parser where
  text : List Char
  lineNumber : Nat
  diagnostics : List Diagnostic
  symbolDefinitions : List Tok
  symbolUses : List (String × List Tok)
  macroDefinitions : List Tok
  macroUses : List (String × List Tok)
  pos : Nat
  lex : LexerResult
  crashed : Bool
deriving DecidableEq, Repr

/-- The `Parser` constructor: lexes the line.  The source runs
`this.diagnostics.concat(this.lex.diagnostics)` and discards the
result (`Array.concat` does not mutate), so `diagnostics` starts
empty. -/
def Parser.new (text : List Char) (lineNumber : Nat) : Parser :=
  { text := text, lineNumber := lineNumber,
    diagnostics := [], symbolDefinitions := [], symbolUses := [],
    macroDefinitions := [], macroUses := [],
    pos := 0, lex := lexLine text lineNumber, crashed := false }

/-- `addDiagnosticForTokenRange`.  The anchors are `Option Tok` because
call sites pass `this.lex.tokens[i]`, which is `undefined` out of
bounds; the JavaScript property read `startToken.lineNumber` then
throws, modelled by setting `crashed`. -/
def Parser.addDiagnosticForTokenRange (s : Parser) (message : String)
    (severity : DiagnosticSeverity) (startToken endToken : Option Tok) :
    Parser :=
  match startToken, endToken with
  | some a, some b =>
    { s with diagnostics := s.diagnostics ++
        [{ severity := severity,
           range := { start := { line := a.lineNumber, character := a.start },
                      stop := { line := b.lineNumber, character := b.stop } },
           message := message }] }
  | _, _ => { s with crashed := true }

/-- `addDiagnosticForToken`. -/
def Parser.addDiagnosticForToken (s : Parser) (message : String)
    (severity : DiagnosticSeverity) (token : Option Tok) : Parser :=
  s.addDiagnosticForTokenRange message severity token token

/-- `addUse`: record a token in a use map under its normalized text;
a missing or empty (falsy) `normText` is ignored. -/
def addUse (tokMap : List (String × List Tok)) (tok : Tok) :
    List (String × List Tok) :=
  match tok.normText with
  | none => tokMap
  | some k =>
    if k = "" then tokMap
    else jsMapPush (if jsMapHas tokMap k then tokMap else jsMapSet tokMap k []) k tok

def Parser.startParse (s : Parser) : Parser :=
  { s with pos := 0 }

def Parser.isDone (s : Parser) : Bool :=
  s.pos = s.lex.tokens.length

/-- `expectToken`: return the token at the cursor and advance when its
type matches; otherwise return `undefined` and leave the cursor.  When
`pos` exceeds the token count without being equal to it, the JavaScript
code reads `tokens[pos].type` of `undefined` (crash). -/
def expectToken (s : Parser) (type : TokenType) : Option Tok × Parser :=
  if s.isDone then (none, s)
  else
    match s.lex.tokens.get? s.pos with
    | some t =>
      if t.type = type then (some t, { s with pos := s.pos + 1 })
      else (none, s)
    | none => (none, { s with crashed := true })

/-- `expectTokenWithText`: as `expectToken`, also requiring the
normalized text. -/
def expectTokenWithText (s : Parser) (type : TokenType) (text : String) :
    Option Tok × Parser :=
  if s.isDone then (none, s)
  else
    match s.lex.tokens.get? s.pos with
    | some t =>
      if t.type = type && t.normText = some text then
        (some t, { s with pos := s.pos + 1 })
      else (none, s)
    | none => (none, { s with crashed := true })

/-- `isLocalLabel`: the token is a Name whose text matches `^\d+\$$`
(`(tok.normText || '').match(...)`). -/
def isLocalLabel (tok : Tok) : Bool :=
  tok.type = TokenType.Name &&
    (let cs := (tok.normText.getD "").data
     decide (2 ≤ cs.length) && cs.dropLast.all Char.isDigit &&
       cs.getLast? = some '$')

/-- `expectLabel`: a Name, an optional `:`, recorded as a symbol
definition unless it is a local label. -/
def expectLabel (s : Parser) : Option Tok × Parser :=
  let r := expectToken s TokenType.Name
  match r.1 with
  | none => (none, r.2)
  | some tok =>
    let s2 := (expectTokenWithText r.2 TokenType.Operator ":").2
    let s3 :=
      if !(isLocalLabel tok) then
        { s2 with symbolDefinitions := s2.symbolDefinitions ++ [tok] }
      else s2
    (some tok, s3)

/-- Fuel handed to the expression parser and the argument loops: every
recursive call and loop iteration first advances `pos`, which is
bounded by the token count, so this fuel is never exhausted. -/
def exprFuel (s : Parser) : Nat :=
  s.lex.tokens.length + 1

mutual

/-- `expectExpression` of `bsa_parse.ts` (the term-parsing part; the
trailing `for (;;)` loop over binary operators is
`expectExpressionLoop`). -/
def expectExpression : Nat → Parser → Nat → Bool × Parser
  | 0, s, _ => (false, s)
  | fuel + 1, s, priority =>
    if s.isDone then (false, s)
    else
      match s.lex.tokens.get? s.pos with
      | none => (false, { s with crashed := true })
      | some t0 =>
        let isStarOrAmpersand := t0.type = TokenType.Operator &&
          (t0.normText = some "*" || t0.normText = some "&")
        if t0.type = TokenType.Operator && !isStarOrAmpersand then
          let txt := t0.normText
          if txt = some "," then (false, s)
          else if txt = some "(" || txt = some "[" then
            let s1 := { s with pos := s.pos + 1 }
            let closing := if txt = some "(" then ")" else "]"
            let r := expectExpression fuel s1 0
            if r.1 = false then (false, r.2)
            else
              let rc := expectTokenWithText r.2 TokenType.Operator closing
              match rc.1 with
              | none =>
                (false, rc.2.addDiagnosticForToken
                  ("Expected closing bracket: " ++ closing)
                  DiagnosticSeverity.Error (rc.2.lex.tokens.get? (rc.2.pos - 1)))
              | some _ => expectExpressionLoop fuel rc.2 priority
          else if unaryOperators.any (fun op => txt = some op) then
            let s1 := { s with pos := s.pos + 1 }
            let r := expectExpression fuel s1 12
            if r.1 then expectExpressionLoop fuel r.2 priority
            else (false, r.2)
          else
            (false, s.addDiagnosticForToken "Unexpected operator"
              DiagnosticSeverity.Error (some t0))
        else if t0.type ≠ TokenType.LiteralNumber && !isStarOrAmpersand &&
            t0.type ≠ TokenType.Name then
          (false, s.addDiagnosticForToken "Illegal operand"
            DiagnosticSeverity.Error (some t0))
        else
          let s1 :=
            if t0.type = TokenType.Name && !(isLocalLabel t0) then
              { s with symbolUses := addUse s.symbolUses t0 }
            else s
          expectExpressionLoop fuel { s1 with pos := s1.pos + 1 } priority

/-- The binary-operator continuation loop of `expectExpression`. -/
def expectExpressionLoop : Nat → Parser → Nat → Bool × Parser
  | 0, s, _ => (true, s)
  | fuel + 1, s, priority =>
    if s.isDone then (true, s)
    else
      match s.lex.tokens.get? s.pos with
      | none => (true, { s with crashed := true })
      | some t =>
        if t.type ≠ TokenType.Operator ||
            !(binaryOperators.any (fun op => t.normText = some op)) then
          (true, s)
        else
          let opPriority := binaryOperatorPriorites (t.normText.getD "")
          if opPriority ≤ priority then (true, s)
          else
            let s1 := { s with pos := s.pos + 1 }
            let r := expectExpression fuel s1 opPriority
            if r.1 then expectExpressionLoop fuel r.2 priority
            else
              (false, r.2.addDiagnosticForToken "Missing operand"
                DiagnosticSeverity.Error (r.2.lex.tokens.get? (r.2.pos - 1)))

end

/-! ## Statement shapes (`bsa_parse.ts`) -/

/-- The errant-keyword scan shared by `parseSoloTokens`,
`parseIfDirective` and `parseIfDefDirective`: the inner
`for (this.pos = 1; ...)` loop finds the first keyword token `kw` at an
index of 1 or more, reports one diagnostic anchored at it and leaves
`pos` at the end of the token list; when none is found, `pos` is
restored to `prevPos`, leaving the state unchanged. -/
def scanForErrantKeyword (s : Parser) (kw : String) (message : String) :
    Parser :=
  match (s.lex.tokens.drop 1).find?
      (fun t => t.type = TokenType.Keyword && t.normText = some kw) with
  | some t =>
    { s.addDiagnosticForToken message DiagnosticSeverity.Error (some t) with
      pos := s.lex.tokens.length }
  | none => s

/-- One keyword of the `parseSoloTokens` loop. -/
def soloKwStep (s : Parser) (kw : String) : Parser :=
  let r := if s.pos = 0 then expectTokenWithText s TokenType.Keyword kw
           else (none, s)
  match r.1 with
  | some _ =>
    let s1 := r.2
    let s2 :=
      if 1 < s1.lex.tokens.length then
        match s1.lex.tokens.get? 0 with
        | some t0 =>
          s1.addDiagnosticForToken
            ("Unexpected text after " ++ (t0.normText.getD "undefined"))
            DiagnosticSeverity.Error (some t0)
        | none => { s1 with crashed := true }
      else s1
    { s2 with pos := s2.lex.tokens.length }
  | none =>
    if 1 < r.2.lex.tokens.length then
      scanForErrantKeyword r.2 kw ("Unexpected text before " ++ kw)
    else r.2

/-- `parseSoloTokens`: `#else`, `#endif` and `endmac` must appear alone
on the line. -/
def parseSoloTokens (s : Parser) : Parser :=
  if s.isDone then s
  else soloKwStep (soloKwStep (soloKwStep s "#else") "#endif") "endmac"

/-- `parseIfDirective`: `#if {expr}`. -/
def parseIfDirective (s : Parser) : Parser :=
  if s.isDone then s
  else
    let r := if s.pos = 0 then expectTokenWithText s TokenType.Keyword "#if"
             else (none, s)
    match r.1 with
    | some _ =>
      let re := expectExpression (exprFuel r.2) r.2 0
      let s2 := re.2
      let s3 :=
        if !re.1 then
          s2.addDiagnosticForToken "Missing or invalid expression for #if"
            DiagnosticSeverity.Error (s2.lex.tokens.get? 0)
        else
          match s2.lex.tokens.get? s2.pos with
          | some t =>
            if t.type ≠ TokenType.RestOfLine then
              s2.addDiagnosticForToken "Unexpected text after #if"
                DiagnosticSeverity.Error (s2.lex.tokens.get? 0)
            else s2
          | none => s2
      { s3 with pos := s3.lex.tokens.length }
    | none =>
      if 1 < r.2.lex.tokens.length then
        scanForErrantKeyword r.2 "#if" "Unexpected text before #if"
      else r.2

/-- `parseIfDefDirective`: `#ifdef {sym}`. -/
def parseIfDefDirective (s : Parser) : Parser :=
  if s.isDone then s
  else
    let r := if s.pos = 0 then expectTokenWithText s TokenType.Keyword "#ifdef"
             else (none, s)
    match r.1 with
    | some _ =>
      let rn := expectToken r.2 TokenType.Name
      let s3 :=
        match rn.1 with
        | some nameTok =>
          let s2 :=
            if !(isLocalLabel nameTok) then
              { rn.2 with symbolUses := addUse rn.2.symbolUses nameTok }
            else rn.2
          match s2.lex.tokens.get? s2.pos with
          | some t =>
            if t.type ≠ TokenType.RestOfLine then
              s2.addDiagnosticForToken "Unexpected text after #ifdef"
                DiagnosticSeverity.Error (s2.lex.tokens.get? 0)
            else s2
          | none => s2
        | none =>
          rn.2.addDiagnosticForToken "Missing symbol for #ifdef"
            DiagnosticSeverity.Error (rn.2.lex.tokens.get? 0)
      { s3 with pos := s3.lex.tokens.length }
    | none =>
      if 1 < r.2.lex.tokens.length then
        scanForErrantKeyword r.2 "#ifdef" "Unexpected text before #ifdef"
      else r.2

/-- `handleUnrecognizedHashDirective`: a leading `#` operator token. -/
def handleUnrecognizedHashDirective (s : Parser) : Parser :=
  if s.isDone then s
  else
    let r := if s.pos = 0 then expectTokenWithText s TokenType.Operator "#"
             else (none, s)
    match r.1 with
    | some _ =>
      { r.2.addDiagnosticForToken "Unrecognized conditional assembly directive"
          DiagnosticSeverity.Error (r.2.lex.tokens.get? 0) with
        pos := r.2.lex.tokens.length }
    | none => r.2

/-- The `while (expectArgs && this.expectToken(Name))` argument loop of
`parseMacroDefinitionStart`. -/
def parseMacroArgsLoop : Nat → Parser → Parser
  | 0, s => s
  | fuel + 1, s =>
    let rn := expectToken s TokenType.Name
    match rn.1 with
    | none => rn.2
    | some _ =>
      let rc := expectTokenWithText rn.2 TokenType.Operator ","
      match rc.1 with
      | none => rc.2
      | some _ => parseMacroArgsLoop fuel rc.2

/-- `parseMacroDefinitionStart`: `macro name(arg, ...)`.  With a bare
`macro` and nothing else on the line, the missing-name diagnostic is
anchored at `this.lex.tokens[this.pos]`, which is out of bounds. -/
def parseMacroDefinitionStart (s : Parser) : Parser :=
  if s.isDone then s
  else
    let r := expectTokenWithText s TokenType.Keyword "macro"
    match r.1 with
    | none => r.2
    | some _ =>
      let rn := expectToken r.2 TokenType.Name
      let s3 :=
        match rn.1 with
        | some nameTok =>
          let ro := expectTokenWithText rn.2 TokenType.Operator "("
          match ro.1 with
          | none =>
            ro.2.addDiagnosticForToken "Missing ( for macro definition"
              DiagnosticSeverity.Error (some nameTok)
          | some _ =>
            let s2b := parseMacroArgsLoop (exprFuel ro.2) ro.2
            let rp := expectTokenWithText s2b TokenType.Operator ")"
            match rp.1 with
            | none =>
              rp.2.addDiagnosticForToken "Missing ) for macro definition"
                DiagnosticSeverity.Error (some nameTok)
            | some _ =>
              if !rp.2.isDone then
                rp.2.addDiagnosticForToken
                  "Unexpected text after macro definition start"
                  DiagnosticSeverity.Error (rp.2.lex.tokens.get? rp.2.pos)
              else
                { rp.2 with
                  macroDefinitions := rp.2.macroDefinitions ++ [nameTok] }
        | none =>
          rn.2.addDiagnosticForToken "Missing name for macro definition"
            DiagnosticSeverity.Error (rn.2.lex.tokens.get? rn.2.pos)
      { s3 with pos := s3.lex.tokens.length }

/-- `parseAssignment`: a Name or `&` operator, `=`, expression; fully
backtracks when `=` is absent. -/
def parseAssignment (s : Parser) : Parser :=
  if s.isDone then s
  else
    let startPos := s.pos
    let r1 := expectToken s TokenType.Name
    let r2 := match r1.1 with
      | some t => (some t, r1.2)
      | none => expectTokenWithText r1.2 TokenType.Operator "&"
    match r2.1 with
    | none => r2.2
    | some nameTok =>
      let re := expectTokenWithText r2.2 TokenType.Operator "="
      match re.1 with
      | none => { re.2 with pos := startPos }
      | some _ =>
        let rx := expectExpression (exprFuel re.2) re.2 0
        let s5 :=
          if !rx.1 then
            rx.2.addDiagnosticForToken "Invalid assignment expression"
              DiagnosticSeverity.Error (rx.2.lex.tokens.get? (rx.2.pos - 1))
          else if nameTok.normText ≠ some "*" && nameTok.normText ≠ some "&" then
            { rx.2 with symbolDefinitions := rx.2.symbolDefinitions ++ [nameTok] }
          else rx.2
        { s5 with pos := s5.lex.tokens.length }

/-- `parseLabel`: an optional leading label; a Name immediately
followed by `(` is left for macro-use detection. -/
def parseLabel (s : Parser) : Parser :=
  if s.isDone then s
  else
    match s.lex.tokens.get? s.pos with
    | some t =>
      if t.type = TokenType.Name then
        match s.lex.tokens.get? (s.pos + 1) with
        | some secondTok =>
          if secondTok.type ≠ TokenType.Operator ||
              secondTok.normText ≠ some "(" then
            (expectLabel s).2
          else s
        | none => (expectLabel s).2
      else s
    | none => s

/-- The `while (!this.expectTokenWithText(Operator, ')'))` argument
loop of `parseMacroUse`; returns `sawArgumentError` and the state. -/
def parseMacroUseLoop : Nat → Parser → Bool → Bool × Parser
  | 0, s, _ => (false, s)
  | fuel + 1, s, sawComma =>
    let rp := expectTokenWithText s TokenType.Operator ")"
    match rp.1 with
    | some _ => (false, rp.2)
    | none =>
      let s1 := rp.2
      if s1.isDone || !sawComma then
        (true, s1.addDiagnosticForToken "Expected , or )"
          DiagnosticSeverity.Error (s1.lex.tokens.get? (s1.pos - 1)))
      else
        let rx := expectExpression (exprFuel s1) s1 0
        if !rx.1 then
          (true, rx.2.addDiagnosticForToken "Invalid macro argument"
            DiagnosticSeverity.Error (rx.2.lex.tokens.get? (rx.2.pos - 1)))
        else
          let rc := expectTokenWithText rx.2 TokenType.Operator ","
          parseMacroUseLoop fuel rc.2 rc.1.isSome

/-- `parseMacroUse`: `name(expr, ...)`; the macro use is recorded only
when the whole construct parses and ends the line. -/
def parseMacroUse (s : Parser) : Parser :=
  if s.isDone then s
  else
    let r := expectToken s TokenType.Name
    match r.1 with
    | none => r.2
    | some macroUseTok =>
      let ro := expectTokenWithText r.2 TokenType.Operator "("
      let s3 :=
        match ro.1 with
        | none =>
          ro.2.addDiagnosticForToken
            "Unexpected name; maybe macro call missing () ?"
            DiagnosticSeverity.Error (some macroUseTok)
        | some _ =>
          let rl := parseMacroUseLoop (exprFuel ro.2) ro.2 true
          if !rl.1 then
            if !rl.2.isDone then
              rl.2.addDiagnosticForToken "Unexpected text after macro call"
                DiagnosticSeverity.Error (rl.2.lex.tokens.get? rl.2.pos)
            else
              { rl.2 with macroUses := addUse rl.2.macroUses macroUseTok }
          else rl.2
      { s3 with pos := s3.lex.tokens.length }

/-- `parsePseudoOp`: a Keyword token consumes the line (argument
parsing is a TODO in the source). -/
def parsePseudoOp (s : Parser) : Parser :=
  if s.isDone then s
  else
    let r := expectToken s TokenType.Keyword
    match r.1 with
    | none => r.2
    | some _ => { r.2 with pos := r.2.lex.tokens.length }

/-- `parseOpcode`: an Opcode token consumes the line (the addressing
mode grammar is a TODO in the source). -/
def parseOpcode (s : Parser) : Parser :=
  let r := expectToken s TokenType.Opcode
  match r.1 with
  | none => r.2
  | some _ => { r.2 with pos := r.2.lex.tokens.length }

/-- The parser state built by `parseLine` of `bsa_parse.ts`: the
statement shapes in source order, then the generic syntax error when
tokens remain (the source's `par2`). -/
def parseLineParser (text : List Char) (lineNumber : Nat) : Parser :=
  let par :=
    parseOpcode (parsePseudoOp (parseMacroUse (parseLabel (parseAssignment
      (parseMacroDefinitionStart (handleUnrecognizedHashDirective
        (parseIfDefDirective (parseIfDirective (parseSoloTokens
          (Parser.new text lineNumber).startParse)))))))))
  if !par.isDone then
    par.addDiagnosticForTokenRange "Syntax error" DiagnosticSeverity.Error
      (par.lex.tokens.get? 0) (par.lex.tokens.get? 0)
  else par

/-- `parseLine` of `bsa_parse.ts`: the final state projected to a
`ParserResult`.  A `crashed` state means the JavaScript call threw, so
no result is returned. -/
def parseLine (text : List Char) (lineNumber : Nat) : Option ParserResult :=
  let par2 := parseLineParser text lineNumber
  if par2.crashed then none
  else some
    { diagnostics := par2.diagnostics,
      symbolDefinitions := par2.symbolDefinitions,
      symbolUses := par2.symbolUses,
      macroDefinitions := par2.macroDefinitions,
      macroUses := par2.macroUses }

/-! ## Statement-support definitions -/

/-- Position `p` lies inside one of the tokens. -/
def inTokenAt (tokens : List Tok) (p : Nat) : Prop :=
  ∃ t ∈ tokens, t.start ≤ p ∧ p < t.stop

/-- Position `p` of the lexed line is accounted for: it is inside a
token, or it is whitespace that `startLex` skipped, or it lies in a
line-comment suffix (a `;` at or before `p`, past every token), or the
whole line is a star comment (which produces no tokens). -/
def coverAt (s : Lexer) (p : Nat) : Prop :=
  inTokenAt s.tokens p ∨
  (∃ c, charAt s.text p = some c ∧ isJsSpace c) ∨
  (∃ c, c ≤ p ∧ charAt s.text c = some ';' ∧ ∀ t ∈ s.tokens, t.stop ≤ c) ∨
  (starCommentMatches s.text = true ∧ s.tokens = [])

def ToksOnLine (n : Nat) (ts : List Tok) : Prop :=
  ∀ t ∈ ts, t.lineNumber = n

def DiagsOnLine (n : Nat) (ds : List Diagnostic) : Prop :=
  ∀ d ∈ ds, d.range.start.line = n ∧ d.range.stop.line = n

def ExprFrame (fuel : Nat) : Prop :=
  ∀ (s : Parser) (priority : Nat), s.pos ≤ s.lex.tokens.length →
    (expectExpression fuel s priority).2.lex = s.lex ∧
    s.pos ≤ (expectExpression fuel s priority).2.pos ∧
    (expectExpression fuel s priority).2.pos ≤ s.lex.tokens.length ∧
    ((expectExpression fuel s priority).1 = true →
      s.pos < (expectExpression fuel s priority).2.pos ∧
      (expectExpression fuel s priority).2.diagnostics = s.diagnostics) ∧
    ((expectExpression fuel s priority).1 = false →
      (expectExpression fuel s priority).2.diagnostics.length ≤
        s.diagnostics.length + ((expectExpression fuel s priority).2.pos - s.pos) + 1)

def ExprLoopFrame (fuel : Nat) : Prop :=
  ∀ (s : Parser) (priority : Nat), s.pos ≤ s.lex.tokens.length →
    (expectExpressionLoop fuel s priority).2.lex = s.lex ∧
    s.pos ≤ (expectExpressionLoop fuel s priority).2.pos ∧
    (expectExpressionLoop fuel s priority).2.pos ≤ s.lex.tokens.length ∧
    ((expectExpressionLoop fuel s priority).1 = true →
      (expectExpressionLoop fuel s priority).2.diagnostics = s.diagnostics) ∧
    ((expectExpressionLoop fuel s priority).1 = false →
      (expectExpressionLoop fuel s priority).2.diagnostics.length ≤
        s.diagnostics.length + ((expectExpressionLoop fuel s priority).2.pos - s.pos) + 1)

def ExprLines (fuel : Nat) : Prop :=
  ∀ (s : Parser) (prio n : Nat),
    ToksOnLine n s.lex.tokens → DiagsOnLine n s.diagnostics →
    (expectExpression fuel s prio).2.lex = s.lex ∧
    DiagsOnLine n (expectExpression fuel s prio).2.diagnostics

def ExprLoopLines (fuel : Nat) : Prop :=
  ∀ (s : Parser) (prio n : Nat),
    ToksOnLine n s.lex.tokens → DiagsOnLine n s.diagnostics →
    (expectExpressionLoop fuel s prio).2.lex = s.lex ∧
    DiagsOnLine n (expectExpressionLoop fuel s prio).2.diagnostics

def TokSpaceCover (s : Lexer) (p : Nat) : Prop :=
  inTokenAt s.tokens p ∨ (∃ c, charAt s.text p = some c ∧ isJsSpace c)

def LexInv (s : Lexer) : Prop :=
  s.start ≤ s.stop ∧ s.stop ≤ s.text.length + 1 ∧
  (∀ t ∈ s.tokens, t.start ≤ t.stop ∧ t.start ≤ s.text.length ∧
    t.stop ≤ s.text.length + 1 ∧
    (t.stop = s.text.length + 1 → t.type = TokenType.LiteralString)) ∧
  List.Chain' (fun a b => a.stop ≤ b.start) s.tokens ∧
  (∀ t ∈ s.tokens, t.stop ≤ s.stop) ∧
  (∀ p, p < s.stop → p < s.text.length → TokSpaceCover s p)

def LexFinal (s : Lexer) : Prop :=
  List.Chain' (fun a b => a.stop ≤ b.start) s.tokens ∧
  (∀ t ∈ s.tokens, t.start ≤ t.stop ∧ t.start ≤ s.text.length ∧
    t.stop ≤ s.text.length + 1 ∧
    (t.stop = s.text.length + 1 → t.type = TokenType.LiteralString)) ∧
  (∀ p, p < s.stop → p < s.text.length → coverAt s p)

/-! ## Theorems -/

/-- C1: the claim states that `mergeParserResultsLeft` merges the use
maps by appending the second result's token list onto the first's under
a shared key.  The code instead runs `first.symbolUses.set(k, v)` for
each entry of the second map, which replaces the first result's list.
This counterexample-style theorem evaluates the merge on two results
that both bind the key `"a"`: the merged map binds `"a"` to the second
list alone, not to the concatenation.  (Diagnostics and definition
lists are concatenated as claimed.) -/
theorem mergeParserResultsLeft_overwrites_shared_key :
  (mergeParserResultsLeft
    { diagnostics := [],
      symbolDefinitions := [],
      symbolUses := [("a",
        [{ type := TokenType.Name, lineNumber := 0, start := 0, stop := 1,
           normText := some "a" }])],
      macroDefinitions := [],
      macroUses := [] }
    { diagnostics := [],
      symbolDefinitions := [],
      symbolUses := [("a",
        [{ type := TokenType.Name, lineNumber := 1, start := 4, stop := 5,
           normText := some "a" }])],
      macroDefinitions := [],
      macroUses := [] }).symbolUses =
    [("a",
      [{ type := TokenType.Name, lineNumber := 1, start := 4, stop := 5,
         normText := some "a" }])] ∧
  ¬ ((mergeParserResultsLeft
    { diagnostics := [],
      symbolDefinitions := [],
      symbolUses := [("a",
        [{ type := TokenType.Name, lineNumber := 0, start := 0, stop := 1,
           normText := some "a" }])],
      macroDefinitions := [],
      macroUses := [] }
    { diagnostics := [],
      symbolDefinitions := [],
      symbolUses := [("a",
        [{ type := TokenType.Name, lineNumber := 1, start := 4, stop := 5,
           normText := some "a" }])],
      macroDefinitions := [],
      macroUses := [] }).symbolUses =
    [("a",
      [{ type := TokenType.Name, lineNumber := 0, start := 0, stop := 1,
         normText := some "a" },
       { type := TokenType.Name, lineNumber := 1, start := 4, stop := 5,
         normText := some "a" }])]) := by decide

set_option maxRecDepth 1000000 in
/-- C2: the claim states that a line `* = $c000` parses as a
program-counter assignment with zero diagnostics.  In the code the
lexer turns `*` into an Operator token, and `parseAssignment` only
accepts a Name token or the `&` Operator as assignment target, so no
shape consumes the line and `parseLine` reports the generic
`Syntax error` (the repository's own tests for `parseAssignment`
expect the line to parse cleanly). -/
theorem parseLine_star_assignment_is_syntax_error :
  (parseLine "* = $c000".data 0).map
      (fun r => (r.diagnostics.map (fun d => d.message),
                 r.symbolDefinitions)) =
    some (["Syntax error"], []) := by decide

set_option maxRecDepth 1000000 in
/-- C3: the claim states that every lexical diagnostic of a line is
contained in the `parseLine` result.  The `Parser` constructor runs
`this.diagnostics.concat(this.lex.diagnostics)` and discards the
returned array, so lexical diagnostics are dropped: on the line `?`
the lexer reports one `Syntax error`, yet the parse result holds no
diagnostic at all. -/
theorem parseLine_drops_lexer_diagnostics :
  (lexLine "?".data 0).diagnostics.map (fun d => d.message) =
    ["Syntax error"] ∧
  (parseLine "?".data 0).map (fun r => r.diagnostics) = some [] := by decide

set_option maxRecDepth 1000000 in
/-- C4: the claim states that `parseLine` tries the label shape before
the assignment shape.  In the code `parseAssignment` runs before
`parseLabel`, observably: `x = 1` is consumed by the assignment shape
(clean parse recording `x`), while `lbl: x = 1` — which the claimed
order would parse as label then assignment — fails after the label
with `Unexpected name; maybe macro call missing () ?` because the
assignment shape is never retried after a label. -/
theorem parseLine_tries_assignment_before_label :
  (parseLine "x = 1".data 0).map
      (fun r => (r.diagnostics,
                 r.symbolDefinitions.map (fun t => t.normText))) =
    some ([], [some "x"]) ∧
  (parseLine "lbl: x = 1".data 0).map
      (fun r => (r.diagnostics.map (fun d => d.message),
                 r.symbolDefinitions.map (fun t => t.normText))) =
    some (["Unexpected name; maybe macro call missing () ?"],
          [some "lbl"]) := by decide

set_option maxRecDepth 1000000 in
/-- C5: the claim states that `lda ($7a,a)` yields exactly one
diagnostic containing `Invalid indirect index register`.  In the code
`parseOpcode` consumes the Opcode token and then force-consumes the
rest of the line (the addressing-mode grammar is a TODO), so the line
parses with zero diagnostics; the repository's own `parseOpcode` tests
expect the claimed diagnostic. -/
theorem parseLine_invalid_indirect_register_no_diagnostic :
  (parseLine "lda ($7a,a)".data 0).map (fun r => r.diagnostics) =
    some [] := by decide

set_option maxRecDepth 1000000 in
/-- C8: the claim states that every failure of
`parseMacroDefinitionStart` (in particular a missing name) emits a
diagnostic and leaves `macroDefinitions` unchanged.  On the line
`macro` the missing-name diagnostic is anchored at
`this.lex.tokens[this.pos]`, which is out of bounds, so the JavaScript
code throws a `TypeError` instead of emitting the diagnostic (the
embedding returns `none`).  The successful-parse half of the claim
does hold: `macro name(arg1, arg2, arg3)` records one macro definition
named `name` with zero diagnostics. -/
theorem parseMacroDefinitionStart_missing_name_crash :
  parseLine "macro".data 0 = none ∧
  (parseLine "macro name(arg1, arg2, arg3)".data 0).map
      (fun r => (r.diagnostics,
                 r.macroDefinitions.map (fun t => t.normText))) =
    some ([], [some "name"]) := by decide

set_option maxRecDepth 1000000 in
/-- C6 counterexample: the claim asserts that every emitted token
satisfies `end ≤ line.length`, including for a string literal whose
closing delimiter is missing.  On the two-character line `"\` the
string lexer consumes the backslash as an escape, steps past the end
of the line, and emits a LiteralString token with `end = 3` on a line
of length 2. -/
theorem lexLine_unterminated_backslash_token_end :
  (lexLine "\"\\".data 0).tokens =
    [{ type := TokenType.LiteralString, lineNumber := 0, start := 0,
       stop := 3, normText := some "" }] ∧
  ("\"\\".data).length = 2 ∧
  ¬ (∀ t ∈ (lexLine "\"\\".data 0).tokens,
       t.stop ≤ ("\"\\".data).length) := by decide

set_option maxRecDepth 1000000 in
/-- C7 counterexample: the claim asserts that a failing
`expectExpression` leaves the cursor at the position it held on entry.
On the token stream of the line `1+` the call enters at position 0,
consumes `1` and `+`, fails on the missing right operand, and returns
`false` with the cursor at position 2. -/
theorem expectExpression_failure_cursor_advances :
  ((Parser.new "1+".data 7).startParse).pos = 0 ∧
  (expectExpression (exprFuel ((Parser.new "1+".data 7).startParse))
      ((Parser.new "1+".data 7).startParse) 0).1 = false ∧
  (expectExpression (exprFuel ((Parser.new "1+".data 7).startParse))
      ((Parser.new "1+".data 7).startParse) 0).2.pos = 2 := by decide

theorem addDiagnosticForTokenRange_shape (s : Parser) (m : String)
    (sev : DiagnosticSeverity) (a b : Option Tok) :
    (s.addDiagnosticForTokenRange m sev a b).pos = s.pos ∧
    (s.addDiagnosticForTokenRange m sev a b).lex = s.lex ∧
    s.diagnostics.length ≤ (s.addDiagnosticForTokenRange m sev a b).diagnostics.length ∧
    (s.addDiagnosticForTokenRange m sev a b).diagnostics.length ≤ s.diagnostics.length + 1 := by
  unfold Parser.addDiagnosticForTokenRange
  cases a <;> cases b <;> simp

theorem addDiagnosticForToken_shape (s : Parser) (m : String)
    (sev : DiagnosticSeverity) (a : Option Tok) :
    (s.addDiagnosticForToken m sev a).pos = s.pos ∧
    (s.addDiagnosticForToken m sev a).lex = s.lex ∧
    s.diagnostics.length ≤ (s.addDiagnosticForToken m sev a).diagnostics.length ∧
    (s.addDiagnosticForToken m sev a).diagnostics.length ≤ s.diagnostics.length + 1 := by
  unfold Parser.addDiagnosticForToken
  exact addDiagnosticForTokenRange_shape s m sev a a

theorem expectToken_shape (s : Parser) (ty : TokenType) :
    (expectToken s ty).2.lex = s.lex ∧
    (expectToken s ty).2.diagnostics = s.diagnostics ∧
    ((expectToken s ty).2.pos = s.pos ∨
      ((expectToken s ty).2.pos = s.pos + 1 ∧ s.pos < s.lex.tokens.length)) ∧
    ((expectToken s ty).1 = none → (expectToken s ty).2.pos = s.pos) ∧
    (∀ t, (expectToken s ty).1 = some t → s.lex.tokens.get? s.pos = some t ∧
      (expectToken s ty).2.pos = s.pos + 1) := by
  unfold expectToken
  split
  · simp
  · rcases hg : s.lex.tokens.get? s.pos with _ | t
    · simp
    · have hlt : s.pos < s.lex.tokens.length := (List.get?_eq_some.mp hg).1
      by_cases hty : t.type = ty
      · simp [hty, hlt, hg]
      · simp [hty]

theorem expectTokenWithText_shape (s : Parser) (ty : TokenType) (txt : String) :
    (expectTokenWithText s ty txt).2.lex = s.lex ∧
    (expectTokenWithText s ty txt).2.diagnostics = s.diagnostics ∧
    ((expectTokenWithText s ty txt).2.pos = s.pos ∨
      ((expectTokenWithText s ty txt).2.pos = s.pos + 1 ∧ s.pos < s.lex.tokens.length)) ∧
    ((expectTokenWithText s ty txt).1 = none → (expectTokenWithText s ty txt).2.pos = s.pos) ∧
    (∀ t, (expectTokenWithText s ty txt).1 = some t → s.lex.tokens.get? s.pos = some t ∧
      (expectTokenWithText s ty txt).2.pos = s.pos + 1) := by
  unfold expectTokenWithText
  split
  · simp
  · rcases hg : s.lex.tokens.get? s.pos with _ | t
    · simp
    · have hlt : s.pos < s.lex.tokens.length := (List.get?_eq_some.mp hg).1
      by_cases hb : (t.type = ty && t.normText = some txt) = true
      · simp [hb, hlt, hg]
      · simp only [Bool.not_eq_true] at hb
        simp [hb]

theorem exprLoopFrame_step (n : Nat) (hE : ExprFrame n) (hL : ExprLoopFrame n) :
    ExprLoopFrame (n + 1) := by
  intro s priority h
  simp only [expectExpressionLoop]
  split
  · simp [h]
  · rcases hg : s.lex.tokens.get? s.pos with _ | t
    · exfalso
      have hlen : s.lex.tokens.length ≤ s.pos := List.get?_eq_none.mp hg
      rename_i hnd
      have : ¬ (s.pos = s.lex.tokens.length) := by
        simpa [Parser.isDone] using hnd
      omega
    · have hlt : s.pos < s.lex.tokens.length := (List.get?_eq_some.mp hg).1
      simp only [hg]
      split
      · simp [h]
      · split
        · simp [h]
        · set s1 : Parser := { s with pos := s.pos + 1 } with hs1
          have hlex1 : s1.lex = s.lex := rfl
          have hpos1 : s1.pos = s.pos + 1 := rfl
          have hdlen1 : s1.diagnostics.length = s.diagnostics.length := rfl
          have h1 : s1.pos ≤ s1.lex.tokens.length := by
            rw [hpos1, hlex1]; omega
          set P := binaryOperatorPriorites (t.normText.getD "") with hP
          obtain ⟨e_lex, e_lo, e_hi, e_true, e_false⟩ := hE s1 P h1
          set r2 := (expectExpression n s1 P).2 with hr2
          have hrlex : r2.lex.tokens.length = s.lex.tokens.length := by
            rw [e_lex, hlex1]
          rcases hr : (expectExpression n s1 P).1 with _ | _
          · -- inner failure: Missing operand diagnostic, return false
            simp only [hr, Bool.false_eq_true, if_false]
            have hAp : ∀ a, (r2.addDiagnosticForToken "Missing operand"
                DiagnosticSeverity.Error a).pos = r2.pos :=
              fun a => (addDiagnosticForToken_shape r2 "Missing operand"
                DiagnosticSeverity.Error a).1
            have hAl : ∀ a, (r2.addDiagnosticForToken "Missing operand"
                DiagnosticSeverity.Error a).lex = r2.lex :=
              fun a => (addDiagnosticForToken_shape r2 "Missing operand"
                DiagnosticSeverity.Error a).2.1
            have hAd : ∀ a, (r2.addDiagnosticForToken "Missing operand"
                DiagnosticSeverity.Error a).diagnostics.length ≤
                r2.diagnostics.length + 1 :=
              fun a => (addDiagnosticForToken_shape r2 "Missing operand"
                DiagnosticSeverity.Error a).2.2.2
            have e5 := e_false hr
            refine ⟨?_, ?_, ?_, ?_, ?_⟩
            · rw [hAl, e_lex, hlex1]
            · rw [hAp]; omega
            · rw [hAp]
              rw [hlex1] at e_hi; omega
            · intro hcon; cases hcon
            · intro _
              rw [hAp]
              refine le_trans (hAd _) ?_
              omega
          · -- inner success: continue the loop with smaller fuel
            simp only [hr, if_true]
            have et := e_true hr
            have h2 : r2.pos ≤ r2.lex.tokens.length := by
              rw [hrlex]
              rw [hlex1] at e_hi; omega
            obtain ⟨l_lex, l_lo, l_hi, l_true, l_false⟩ := hL r2 priority h2
            have hrd : r2.diagnostics.length = s.diagnostics.length := by
              rw [et.2]
            refine ⟨?_, ?_, ?_, ?_, ?_⟩
            · rw [l_lex, e_lex, hlex1]
            · omega
            · rw [hrlex] at l_hi; omega
            · intro hres
              rw [l_true hres, et.2]
            · intro hres
              have := l_false hres
              omega

theorem exprFrame_step (n : Nat) (hE : ExprFrame n) (hL : ExprLoopFrame n) :
    ExprFrame (n + 1) := by
  intro s priority h
  simp only [expectExpression]
  split
  · simp [h]
  · rcases hg : s.lex.tokens.get? s.pos with _ | t0
    · exfalso
      have hlen : s.lex.tokens.length ≤ s.pos := List.get?_eq_none.mp hg
      rename_i hnd
      have : ¬ (s.pos = s.lex.tokens.length) := by
        simpa [Parser.isDone] using hnd
      omega
    · have hlt : s.pos < s.lex.tokens.length := (List.get?_eq_some.mp hg).1
      simp only [hg]
      split
      · -- operator, not star or ampersand
        split
        · -- comma
          simp [h]
        · split
          · -- opening bracket
            set s1 : Parser := { s with pos := s.pos + 1 } with hs1
            have hlex1 : s1.lex = s.lex := rfl
            have hpos1 : s1.pos = s.pos + 1 := rfl
            have hdlen1 : s1.diagnostics.length = s.diagnostics.length := rfl
            have h1 : s1.pos ≤ s1.lex.tokens.length := by
              rw [hpos1, hlex1]; omega
            obtain ⟨e_lex, e_lo, e_hi, e_true, e_false⟩ := hE s1 0 h1
            set r2 := (expectExpression n s1 0).2 with hr2
            have hrlex : r2.lex.tokens.length = s.lex.tokens.length := by
              rw [e_lex, hlex1]
            rcases hr : (expectExpression n s1 0).1 with _ | _
            · -- inner expression failed
              simp only [hr, Bool.false_eq_true, Bool.true_eq_false, reduceIte]
              have e5 := e_false hr
              refine ⟨?_, ?_, ?_, ?_, ?_⟩
              · rw [e_lex, hlex1]
              · omega
              · rw [hlex1] at e_hi; omega
              · intro hcon; cases hcon
              · intro _; omega
            · -- inner expression parsed; expect the closing bracket
              simp only [hr, Bool.false_eq_true, Bool.true_eq_false, reduceIte]
              have et := e_true hr
              set closing := (if t0.normText = some "(" then ")" else "]") with hcl
              obtain ⟨c_lex, c_diag, c_pos, c_none, c_some⟩ :=
                expectTokenWithText_shape r2 TokenType.Operator closing
              set rc := expectTokenWithText r2 TokenType.Operator closing with hrc
              have hrclex : rc.2.lex.tokens.length = s.lex.tokens.length := by
                rw [c_lex, hrlex]
              rcases hc : rc.1 with _ | tc
              · -- missing closing bracket
                simp only [hc, reduceCtorEq, reduceIte]
                have hcp : rc.2.pos = r2.pos := c_none hc
                have hAp : ∀ a, (rc.2.addDiagnosticForToken
                    ("Expected closing bracket: " ++ closing)
                    DiagnosticSeverity.Error a).pos = rc.2.pos :=
                  fun a => (addDiagnosticForToken_shape rc.2 _ _ a).1
                have hAl : ∀ a, (rc.2.addDiagnosticForToken
                    ("Expected closing bracket: " ++ closing)
                    DiagnosticSeverity.Error a).lex = rc.2.lex :=
                  fun a => (addDiagnosticForToken_shape rc.2 _ _ a).2.1
                have hAd : ∀ a, (rc.2.addDiagnosticForToken
                    ("Expected closing bracket: " ++ closing)
                    DiagnosticSeverity.Error a).diagnostics.length ≤
                    rc.2.diagnostics.length + 1 :=
                  fun a => (addDiagnosticForToken_shape rc.2 _ _ a).2.2.2
                have hcd : rc.2.diagnostics.length = s.diagnostics.length := by
                  rw [c_diag, et.2]
                refine ⟨?_, ?_, ?_, ?_, ?_⟩
                · rw [hAl, c_lex, e_lex, hlex1]
                · rw [hAp, hcp]; omega
                · rw [hAp, hcp]
                  rw [hlex1] at e_hi; omega
                · intro hcon; cases hcon
                · intro _
                  rw [hAp]
                  refine le_trans (hAd _) ?_
                  rw [hcp]; omega
              · -- closing bracket found: binary-operator loop
                simp only [hc, reduceCtorEq, reduceIte]
                have hcs := c_some tc hc
                have hql : r2.pos < r2.lex.tokens.length :=
                  (List.get?_eq_some.mp hcs.1).1
                have h2 : rc.2.pos ≤ rc.2.lex.tokens.length := by
                  rw [hcs.2, c_lex]; omega
                obtain ⟨l_lex, l_lo, l_hi, l_true, l_false⟩ := hL rc.2 priority h2
                have hcd : rc.2.diagnostics.length = s.diagnostics.length := by
                  rw [c_diag, et.2]
                have hcd2 : rc.2.diagnostics = s.diagnostics := by
                  rw [c_diag, et.2]
                refine ⟨?_, ?_, ?_, ?_, ?_⟩
                · rw [l_lex, c_lex, e_lex, hlex1]
                · have := hcs.2; omega
                · rw [hrclex] at l_hi; omega
                · intro hres
                  constructor
                  · have := hcs.2; omega
                  · rw [l_true hres, hcd2]
                · intro hres
                  have := l_false hres
                  have := hcs.2
                  omega
          · split
            · -- unary operator
              set s1 : Parser := { s with pos := s.pos + 1 } with hs1
              have hlex1 : s1.lex = s.lex := rfl
              have hpos1 : s1.pos = s.pos + 1 := rfl
              have hdlen1 : s1.diagnostics.length = s.diagnostics.length := rfl
              have hd1 : s1.diagnostics = s.diagnostics := rfl
              have h1 : s1.pos ≤ s1.lex.tokens.length := by
                rw [hpos1, hlex1]; omega
              obtain ⟨e_lex, e_lo, e_hi, e_true, e_false⟩ := hE s1 12 h1
              set r2 := (expectExpression n s1 12).2 with hr2
              have hrlex : r2.lex.tokens.length = s.lex.tokens.length := by
                rw [e_lex, hlex1]
              rcases hr : (expectExpression n s1 12).1 with _ | _
              · simp only [hr, Bool.false_eq_true, Bool.true_eq_false, reduceIte]
                have e5 := e_false hr
                refine ⟨?_, ?_, ?_, ?_, ?_⟩
                · rw [e_lex, hlex1]
                · omega
                · rw [hlex1] at e_hi; omega
                · intro hcon; cases hcon
                · intro _; omega
              · simp only [hr, Bool.false_eq_true, Bool.true_eq_false, reduceIte]
                have et := e_true hr
                have h2 : r2.pos ≤ r2.lex.tokens.length := by
                  rw [hrlex]; rw [hlex1] at e_hi; omega
                obtain ⟨l_lex, l_lo, l_hi, l_true, l_false⟩ := hL r2 priority h2
                have hrd : r2.diagnostics = s.diagnostics := by
                  rw [et.2, hd1]
                refine ⟨?_, ?_, ?_, ?_, ?_⟩
                · rw [l_lex, e_lex, hlex1]
                · omega
                · rw [hrlex] at l_hi; omega
                · intro hres
                  constructor
                  · have := et.1; omega
                  · rw [l_true hres, hrd]
                · intro hres
                  have := l_false hres
                  have hrdl : r2.diagnostics.length = s.diagnostics.length := by
                    rw [hrd]
                  omega
            · -- unexpected operator at the start of an expression
              have hAp : ∀ a, (s.addDiagnosticForToken "Unexpected operator"
                  DiagnosticSeverity.Error a).pos = s.pos :=
                fun a => (addDiagnosticForToken_shape s _ _ a).1
              have hAl : ∀ a, (s.addDiagnosticForToken "Unexpected operator"
                  DiagnosticSeverity.Error a).lex = s.lex :=
                fun a => (addDiagnosticForToken_shape s _ _ a).2.1
              have hAd : ∀ a, (s.addDiagnosticForToken "Unexpected operator"
                  DiagnosticSeverity.Error a).diagnostics.length ≤
                  s.diagnostics.length + 1 :=
                fun a => (addDiagnosticForToken_shape s _ _ a).2.2.2
              refine ⟨?_, ?_, ?_, ?_, ?_⟩
              · rw [hAl]
              · rw [hAp]
              · rw [hAp]; omega
              · intro hcon; cases hcon
              · intro _
                rw [hAp]
                refine le_trans (hAd _) ?_
                omega
      · split
        · -- not a literal, star/ampersand or name: Illegal operand
          have hAp : ∀ a, (s.addDiagnosticForToken "Illegal operand"
              DiagnosticSeverity.Error a).pos = s.pos :=
            fun a => (addDiagnosticForToken_shape s _ _ a).1
          have hAl : ∀ a, (s.addDiagnosticForToken "Illegal operand"
              DiagnosticSeverity.Error a).lex = s.lex :=
            fun a => (addDiagnosticForToken_shape s _ _ a).2.1
          have hAd : ∀ a, (s.addDiagnosticForToken "Illegal operand"
              DiagnosticSeverity.Error a).diagnostics.length ≤
              s.diagnostics.length + 1 :=
            fun a => (addDiagnosticForToken_shape s _ _ a).2.2.2
          refine ⟨?_, ?_, ?_, ?_, ?_⟩
          · rw [hAl]
          · rw [hAp]
          · rw [hAp]; omega
          · intro hcon; cases hcon
          · intro _
            rw [hAp]
            refine le_trans (hAd _) ?_
            omega
        · -- a term: literal, star/ampersand or name, then the loop
          set sU := (if t0.type = TokenType.Name && !(isLocalLabel t0) then
              { s with symbolUses := addUse s.symbolUses t0 }
            else s) with hsU
          have hU_lex : sU.lex = s.lex := by
            rw [hsU]; split <;> rfl
          have hU_pos : sU.pos = s.pos := by
            rw [hsU]; split <;> rfl
          have hU_diag : sU.diagnostics = s.diagnostics := by
            rw [hsU]; split <;> rfl
          set s2 : Parser := { sU with pos := sU.pos + 1 } with hs2
          have h2 : s2.pos ≤ s2.lex.tokens.length := by
            have : s2.pos = s.pos + 1 := by rw [hs2]; simp [hU_pos]
            have hl2 : s2.lex = s.lex := by rw [hs2]; simpa using hU_lex
            rw [this, hl2]; omega
          obtain ⟨l_lex, l_lo, l_hi, l_true, l_false⟩ := hL s2 priority h2
          have h2p : s2.pos = s.pos + 1 := by rw [hs2]; simp [hU_pos]
          have h2l : s2.lex = s.lex := by rw [hs2]; simpa using hU_lex
          have h2d : s2.diagnostics = s.diagnostics := by
            rw [hs2]; simpa using hU_diag
          have h2dl : s2.diagnostics.length = s.diagnostics.length := by rw [h2d]
          have h2ll : s2.lex.tokens.length = s.lex.tokens.length := by rw [h2l]
          refine ⟨?_, ?_, ?_, ?_, ?_⟩
          · rw [l_lex, h2l]
          · omega
          · rw [h2ll] at l_hi; omega
          · intro hres
            constructor
            · omega
            · rw [l_true hres, h2d]
          · intro hres
            have := l_false hres
            omega

theorem exprFrame_all (fuel : Nat) : ExprFrame fuel ∧ ExprLoopFrame fuel := by
  induction fuel with
  | zero =>
    constructor <;> intro s prio h <;>
      refine ⟨rfl, le_refl _, h, ?_, ?_⟩ <;> intro h2 <;>
      simp [expectExpression, expectExpressionLoop] at h2 ⊢
  | succ n ih => exact ⟨exprFrame_step n ih.1 ih.2, exprLoopFrame_step n ih.1 ih.2⟩

/-- C7 (amended): whenever `expectExpression` returns `false` the
cursor is at or beyond its entry position and never beyond the end of
the token list, with the number of diagnostics growing by at most one
for the failure plus one per consumed token; whenever it returns
`true` the cursor has advanced past at least one token and no
diagnostic has been emitted. -/
theorem expectExpression_cursor_monotone (fuel : Nat) (s : Parser)
    (priority : Nat) (h : s.pos ≤ s.lex.tokens.length) :
    s.pos ≤ (expectExpression fuel s priority).2.pos ∧
    (expectExpression fuel s priority).2.pos ≤ s.lex.tokens.length ∧
    ((expectExpression fuel s priority).1 = true →
      s.pos < (expectExpression fuel s priority).2.pos ∧
      (expectExpression fuel s priority).2.diagnostics = s.diagnostics) ∧
    ((expectExpression fuel s priority).1 = false →
      (expectExpression fuel s priority).2.diagnostics.length ≤
        s.diagnostics.length + ((expectExpression fuel s priority).2.pos - s.pos) + 1) := by
  obtain ⟨_, a, b, c, d⟩ := (exprFrame_all fuel).1 s priority h
  exact ⟨a, b, c, d⟩

theorem toksOnLine_get (n : Nat) (ts : List Tok) (i : Nat) (t : Tok)
    (hT : ToksOnLine n ts) (h : ts.get? i = some t) : t.lineNumber = n :=
  hT t (List.get?_mem h)

theorem addDiagnosticForTokenRange_lines (s : Parser) (m : String)
    (sev : DiagnosticSeverity) (a b : Option Tok) (n : Nat)
    (hd : DiagsOnLine n s.diagnostics)
    (ha : ∀ t, a = some t → t.lineNumber = n)
    (hb : ∀ t, b = some t → t.lineNumber = n) :
    DiagsOnLine n (s.addDiagnosticForTokenRange m sev a b).diagnostics := by
  unfold Parser.addDiagnosticForTokenRange
  cases a with
  | none => cases b <;> exact hd
  | some ta =>
    cases b with
    | none => exact hd
    | some tb =>
      intro d hmem
      rcases List.mem_append.mp hmem with h1 | h1
      · exact hd d h1
      · have hd2 := List.mem_singleton.mp h1
        subst hd2
        exact ⟨ha ta rfl, hb tb rfl⟩

theorem addDiagnosticForToken_lines (s : Parser) (m : String)
    (sev : DiagnosticSeverity) (a : Option Tok) (n : Nat)
    (hd : DiagsOnLine n s.diagnostics)
    (ha : ∀ t, a = some t → t.lineNumber = n) :
    DiagsOnLine n (s.addDiagnosticForToken m sev a).diagnostics :=
  addDiagnosticForTokenRange_lines s m sev a a n hd ha ha

theorem toksOnLine_append (n : Nat) (ts : List Tok) (t : Tok)
    (h : ToksOnLine n ts) (ht : t.lineNumber = n) :
    ToksOnLine n (ts ++ [t]) := by
  intro u hu
  rcases List.mem_append.mp hu with h1 | h1
  · exact h u h1
  · have := List.mem_singleton.mp h1
    subst this; exact ht

theorem addToken_toks (u : Lexer) (ty : TokenType) (nt : Option String)
    (n : Nat) (hn : u.lineNumber = n) (h : ToksOnLine n u.tokens) :
    (u.addToken ty nt).lineNumber = n ∧
    ToksOnLine n (u.addToken ty nt).tokens := by
  unfold Lexer.addToken
  refine ⟨hn, ?_⟩
  intro t ht
  rcases List.mem_append.mp ht with h1 | h1
  · exact h t h1
  · have := List.mem_singleton.mp h1
    subst this; exact hn

theorem startLex_toks (s : Lexer) (n : Nat) (hn : s.lineNumber = n)
    (h : ToksOnLine n s.tokens) :
    (s.startLex).lineNumber = n ∧ ToksOnLine n (s.startLex).tokens := by
  unfold Lexer.startLex
  dsimp only
  split <;> exact ⟨hn, h⟩

theorem lexLineComment_toks (s : Lexer) (n : Nat) (hn : s.lineNumber = n)
    (h : ToksOnLine n s.tokens) :
    (lexLineComment s).lineNumber = n ∧
    ToksOnLine n (lexLineComment s).tokens := by
  unfold lexLineComment
  split <;> exact ⟨hn, h⟩

theorem lexStringLiteral_toks (s : Lexer) (n : Nat) (hn : s.lineNumber = n)
    (h : ToksOnLine n s.tokens) :
    (lexStringLiteral s).lineNumber = n ∧
    ToksOnLine n (lexStringLiteral s).tokens := by
  unfold lexStringLiteral
  split
  · exact ⟨hn, h⟩
  · split
    · split
      · dsimp only
        split
        · exact addToken_toks _ TokenType.LiteralString _ n hn h
        · exact addToken_toks _ TokenType.LiteralString _ n hn h
      · exact ⟨hn, h⟩
    · exact ⟨hn, h⟩

theorem lexKeyword_toks (s : Lexer) (n : Nat) (hn : s.lineNumber = n)
    (h : ToksOnLine n s.tokens) :
    (lexKeyword s).lineNumber = n ∧ ToksOnLine n (lexKeyword s).tokens := by
  unfold lexKeyword
  split
  · exact ⟨hn, h⟩
  · split
    · exact ⟨hn, h⟩
    · dsimp only
      split
      · dsimp only [Lexer.addToken]
        exact ⟨hn, toksOnLine_append n _ _ (toksOnLine_append n _ _ h hn) hn⟩
      · exact addToken_toks _ TokenType.Keyword _ n hn h

theorem lexOpcode_toks (s : Lexer) (n : Nat) (hn : s.lineNumber = n)
    (h : ToksOnLine n s.tokens) :
    (lexOpcode s).lineNumber = n ∧ ToksOnLine n (lexOpcode s).tokens := by
  unfold lexOpcode
  split
  · exact ⟨hn, h⟩
  · split
    · exact ⟨hn, h⟩
    · exact addToken_toks _ TokenType.Opcode _ n hn h

theorem lexOperator_toks (s : Lexer) (n : Nat) (hn : s.lineNumber = n)
    (h : ToksOnLine n s.tokens) :
    (lexOperator s).lineNumber = n ∧ ToksOnLine n (lexOperator s).tokens := by
  unfold lexOperator
  split
  · exact ⟨hn, h⟩
  · split
    · exact ⟨hn, h⟩
    · exact addToken_toks _ TokenType.Operator _ n hn h

theorem lexName_toks (s : Lexer) (n : Nat) (hn : s.lineNumber = n)
    (h : ToksOnLine n s.tokens) :
    (lexName s).lineNumber = n ∧ ToksOnLine n (lexName s).tokens := by
  unfold lexName
  split
  · exact ⟨hn, h⟩
  · split
    · exact ⟨hn, h⟩
    · exact addToken_toks _ TokenType.Name _ n hn h

theorem lexNumber_toks (s : Lexer) (n : Nat) (hn : s.lineNumber = n)
    (h : ToksOnLine n s.tokens) :
    (lexNumber s).lineNumber = n ∧ ToksOnLine n (lexNumber s).tokens := by
  unfold lexNumber
  split
  · exact ⟨hn, h⟩
  · split
    · exact ⟨hn, h⟩
    · exact addToken_toks _ TokenType.LiteralNumber _ n hn h

theorem lexStep_toks (s : Lexer) (n : Nat) (hn : s.lineNumber = n)
    (h : ToksOnLine n s.tokens) :
    (lexStep s).lineNumber = n ∧ ToksOnLine n (lexStep s).tokens := by
  unfold lexStep
  have h0 := startLex_toks s n hn h
  have h1 := lexLineComment_toks _ n h0.1 h0.2
  have h2 := lexStringLiteral_toks _ n h1.1 h1.2
  have h3 := lexOpcode_toks _ n h2.1 h2.2
  have h4 := lexKeyword_toks _ n h3.1 h3.2
  have h5 := lexOperator_toks _ n h4.1 h4.2
  have h6 := lexName_toks _ n h5.1 h5.2
  exact lexNumber_toks _ n h6.1 h6.2

theorem lexLoop_toks (fuel : Nat) (s : Lexer) (n : Nat) (hn : s.lineNumber = n)
    (h : ToksOnLine n s.tokens) :
    (lexLoop fuel s).lineNumber = n ∧ ToksOnLine n (lexLoop fuel s).tokens := by
  induction fuel generalizing s with
  | zero => exact ⟨hn, h⟩
  | succ m ih =>
    unfold lexLoop
    split
    · exact ⟨hn, h⟩
    · dsimp only
      split
      · have hs := lexStep_toks s n hn h
        unfold Lexer.addError Lexer.addDiagnostic
        exact ⟨hs.1, hs.2⟩
      · have hs := lexStep_toks s n hn h
        exact ih _ hs.1 hs.2

theorem lexStarComment_toks (s : Lexer) (n : Nat) (hn : s.lineNumber = n)
    (h : ToksOnLine n s.tokens) :
    (lexStarComment s).lineNumber = n ∧
    ToksOnLine n (lexStarComment s).tokens := by
  unfold lexStarComment
  split <;> exact ⟨hn, h⟩

theorem lexLine_toks (text : List Char) (n : Nat) :
    ToksOnLine n (lexLine text n).tokens := by
  unfold lexLine lexLineState
  dsimp only
  have h0 := startLex_toks
    { text := text, lineNumber := n, start := 0, stop := 0,
      tokens := [], diagnostics := [] } n rfl (by intro t ht; cases ht)
  have h1 := lexStarComment_toks _ n h0.1 h0.2
  exact (lexLoop_toks _ _ n h1.1 h1.2).2

theorem exprLoopLines_step (m : Nat) (hE : ExprLines m) (hL : ExprLoopLines m) :
    ExprLoopLines (m + 1) := by
  intro s prio n hT hd
  simp only [expectExpressionLoop]
  split
  · exact ⟨rfl, hd⟩
  · rcases hg : s.lex.tokens.get? s.pos with _ | t
    · exact ⟨rfl, hd⟩
    · simp only [hg]
      split
      · exact ⟨rfl, hd⟩
      · split
        · exact ⟨rfl, hd⟩
        · set s1 : Parser := { s with pos := s.pos + 1 } with hs1
          set P := binaryOperatorPriorites (t.normText.getD "") with hP
          obtain ⟨e_lex, e_d⟩ := hE s1 P n hT hd
          set r2 := (expectExpression m s1 P).2 with hr2
          have hT2 : ToksOnLine n r2.lex.tokens := by rw [e_lex]; exact hT
          rcases hr : (expectExpression m s1 P).1 with _ | _
          · simp only [hr, Bool.false_eq_true, reduceIte]
            refine ⟨?_, ?_⟩
            · exact (addDiagnosticForToken_shape r2 _ _ _).2.1.trans e_lex
            · refine addDiagnosticForToken_lines r2 _ _ _ n e_d ?_
              intro u hu
              exact toksOnLine_get n r2.lex.tokens _ u hT2 hu
          · simp only [hr, reduceIte]
            obtain ⟨l_lex, l_d⟩ := hL r2 prio n hT2 e_d
            exact ⟨l_lex.trans e_lex, l_d⟩

theorem exprLines_step (m : Nat) (hE : ExprLines m) (hL : ExprLoopLines m) :
    ExprLines (m + 1) := by
  intro s prio n hT hd
  simp only [expectExpression]
  split
  · exact ⟨rfl, hd⟩
  · rcases hg : s.lex.tokens.get? s.pos with _ | t0
    · exact ⟨rfl, hd⟩
    · have ht0 : t0.lineNumber = n := toksOnLine_get n s.lex.tokens _ t0 hT hg
      simp only [hg]
      split
      · split
        · exact ⟨rfl, hd⟩
        · split
          · -- brackets
            set s1 : Parser := { s with pos := s.pos + 1 } with hs1
            obtain ⟨e_lex, e_d⟩ := hE s1 0 n hT hd
            set r2 := (expectExpression m s1 0).2 with hr2
            have hT2 : ToksOnLine n r2.lex.tokens := by rw [e_lex]; exact hT
            rcases hr : (expectExpression m s1 0).1 with _ | _
            · simp only [hr, Bool.false_eq_true, Bool.true_eq_false, reduceIte]
              exact ⟨e_lex, e_d⟩
            · simp only [hr, Bool.false_eq_true, Bool.true_eq_false, reduceIte]
              set closing := (if t0.normText = some "(" then ")" else "]") with hcl
              obtain ⟨c_lex, c_diag, c_pos, c_none, c_some⟩ :=
                expectTokenWithText_shape r2 TokenType.Operator closing
              set rc := expectTokenWithText r2 TokenType.Operator closing with hrc
              have hT3 : ToksOnLine n rc.2.lex.tokens := by rw [c_lex]; exact hT2
              have hd3 : DiagsOnLine n rc.2.diagnostics := by rw [c_diag]; exact e_d
              rcases hc : rc.1 with _ | tc
              · simp only [hc, reduceCtorEq, reduceIte]
                refine ⟨?_, ?_⟩
                · exact (addDiagnosticForToken_shape rc.2 _ _ _).2.1.trans
                    (c_lex.trans e_lex)
                · refine addDiagnosticForToken_lines rc.2 _ _ _ n hd3 ?_
                  intro u hu
                  exact toksOnLine_get n rc.2.lex.tokens _ u hT3 hu
              · simp only [hc, reduceCtorEq, reduceIte]
                obtain ⟨l_lex, l_d⟩ := hL rc.2 prio n hT3 hd3
                exact ⟨l_lex.trans (c_lex.trans e_lex), l_d⟩
          · split
            · -- unary
              set s1 : Parser := { s with pos := s.pos + 1 } with hs1
              obtain ⟨e_lex, e_d⟩ := hE s1 12 n hT hd
              set r2 := (expectExpression m s1 12).2 with hr2
              have hT2 : ToksOnLine n r2.lex.tokens := by rw [e_lex]; exact hT
              rcases hr : (expectExpression m s1 12).1 with _ | _
              · simp only [hr, Bool.false_eq_true, Bool.true_eq_false, reduceIte]
                exact ⟨e_lex, e_d⟩
              · simp only [hr, Bool.false_eq_true, Bool.true_eq_false, reduceIte]
                obtain ⟨l_lex, l_d⟩ := hL r2 prio n hT2 e_d
                exact ⟨l_lex.trans e_lex, l_d⟩
            · -- unexpected operator
              refine ⟨(addDiagnosticForToken_shape s _ _ _).2.1, ?_⟩
              refine addDiagnosticForToken_lines s _ _ _ n hd ?_
              intro u hu
              cases hu; exact ht0
      · split
        · -- illegal operand
          refine ⟨(addDiagnosticForToken_shape s _ _ _).2.1, ?_⟩
          refine addDiagnosticForToken_lines s _ _ _ n hd ?_
          intro u hu
          cases hu; exact ht0
        · -- term then loop
          set sU := (if t0.type = TokenType.Name && !(isLocalLabel t0) then
              { s with symbolUses := addUse s.symbolUses t0 }
            else s) with hsU
          have hU_lex : sU.lex = s.lex := by rw [hsU]; split <;> rfl
          have hU_diag : sU.diagnostics = s.diagnostics := by
            rw [hsU]; split <;> rfl
          set s2 : Parser := { sU with pos := sU.pos + 1 } with hs2
          have hT2 : ToksOnLine n s2.lex.tokens := by
            have : s2.lex = s.lex := by rw [hs2]; simpa using hU_lex
            rw [this]; exact hT
          have hd2 : DiagsOnLine n s2.diagnostics := by
            have : s2.diagnostics = s.diagnostics := by
              rw [hs2]; simpa using hU_diag
            rw [this]; exact hd
          obtain ⟨l_lex, l_d⟩ := hL s2 prio n hT2 hd2
          refine ⟨?_, l_d⟩
          rw [l_lex, hs2]
          simpa using hU_lex

theorem exprLines_all (fuel : Nat) : ExprLines fuel ∧ ExprLoopLines fuel := by
  induction fuel with
  | zero =>
    constructor <;> intro s prio n hT hd <;> exact ⟨rfl, hd⟩
  | succ m ih => exact ⟨exprLines_step m ih.1 ih.2, exprLoopLines_step m ih.1 ih.2⟩

theorem scanForErrantKeyword_lines (s : Parser) (kw msg : String) (n : Nat)
    (hT : ToksOnLine n s.lex.tokens) (hd : DiagsOnLine n s.diagnostics) :
    (scanForErrantKeyword s kw msg).lex = s.lex ∧
    DiagsOnLine n (scanForErrantKeyword s kw msg).diagnostics := by
  unfold scanForErrantKeyword
  split
  · rename_i t hfind
    have htm : t ∈ s.lex.tokens :=
      List.mem_of_mem_drop (List.mem_of_find?_eq_some hfind)
    refine ⟨(addDiagnosticForToken_shape s _ _ _).2.1, ?_⟩
    refine addDiagnosticForToken_lines s _ _ _ n hd ?_
    intro u hu
    cases hu
    exact hT t htm
  · exact ⟨rfl, hd⟩

theorem soloKwStep_lines (s : Parser) (kw : String) (n : Nat)
    (hT : ToksOnLine n s.lex.tokens) (hd : DiagsOnLine n s.diagnostics) :
    (soloKwStep s kw).lex = s.lex ∧
    DiagsOnLine n (soloKwStep s kw).diagnostics := by
  unfold soloKwStep
  split
  · rename_i hpos
    obtain ⟨c_lex, c_diag, _, _, _⟩ :=
      expectTokenWithText_shape s TokenType.Keyword kw
    set r := expectTokenWithText s TokenType.Keyword kw with hr
    have hT1 : ToksOnLine n r.2.lex.tokens := by rw [c_lex]; exact hT
    have hd1 : DiagsOnLine n r.2.diagnostics := by rw [c_diag]; exact hd
    dsimp only
    split
    · split
      · split
        · rename_i t0 hg0
          refine ⟨(addDiagnosticForToken_shape r.2 _ _ _).2.1.trans c_lex, ?_⟩
          refine addDiagnosticForToken_lines r.2 _ _ _ n hd1 ?_
          intro u hu
          cases hu
          exact toksOnLine_get n r.2.lex.tokens 0 t0 hT1 hg0
        · exact ⟨c_lex, hd1⟩
      · exact ⟨c_lex, hd1⟩
    · split
      · obtain ⟨s_lex, s_d⟩ := scanForErrantKeyword_lines r.2 kw _ n hT1 hd1
        exact ⟨s_lex.trans c_lex, s_d⟩
      · exact ⟨c_lex, hd1⟩
  · dsimp only
    split
    · obtain ⟨s_lex, s_d⟩ := scanForErrantKeyword_lines s kw _ n hT hd
      exact ⟨s_lex, s_d⟩
    · exact ⟨rfl, hd⟩

theorem parseSoloTokens_lines (s : Parser) (n : Nat)
    (hT : ToksOnLine n s.lex.tokens) (hd : DiagsOnLine n s.diagnostics) :
    (parseSoloTokens s).lex = s.lex ∧
    DiagsOnLine n (parseSoloTokens s).diagnostics := by
  unfold parseSoloTokens
  split
  · exact ⟨rfl, hd⟩
  · obtain ⟨l1, d1⟩ := soloKwStep_lines s "#else" n hT hd
    have hT1 : ToksOnLine n (soloKwStep s "#else").lex.tokens := by
      rw [l1]; exact hT
    obtain ⟨l2, d2⟩ := soloKwStep_lines _ "#endif" n hT1 d1
    have hT2 : ToksOnLine n (soloKwStep (soloKwStep s "#else") "#endif").lex.tokens := by
      rw [l2, l1]; exact hT
    obtain ⟨l3, d3⟩ := soloKwStep_lines _ "endmac" n hT2 d2
    exact ⟨l3.trans (l2.trans l1), d3⟩

theorem parseIfDirective_lines (s : Parser) (n : Nat)
    (hT : ToksOnLine n s.lex.tokens) (hd : DiagsOnLine n s.diagnostics) :
    (parseIfDirective s).lex = s.lex ∧
    DiagsOnLine n (parseIfDirective s).diagnostics := by
  unfold parseIfDirective
  split
  · exact ⟨rfl, hd⟩
  · split
    · rename_i hpos
      obtain ⟨c_lex, c_diag, _, _, _⟩ :=
        expectTokenWithText_shape s TokenType.Keyword "#if"
      set r := expectTokenWithText s TokenType.Keyword "#if" with hr
      have hT1 : ToksOnLine n r.2.lex.tokens := by rw [c_lex]; exact hT
      have hd1 : DiagsOnLine n r.2.diagnostics := by rw [c_diag]; exact hd
      dsimp only
      split
      · obtain ⟨e_lex, e_d⟩ := (exprLines_all (exprFuel r.2)).1 r.2 0 n hT1 hd1
        set s2 := (expectExpression (exprFuel r.2) r.2 0).2 with hs2
        have hT2 : ToksOnLine n s2.lex.tokens := by rw [e_lex]; exact hT1
        split
        · refine ⟨(addDiagnosticForToken_shape s2 _ _ _).2.1.trans
            (e_lex.trans c_lex), ?_⟩
          refine addDiagnosticForToken_lines s2 _ _ _ n e_d ?_
          intro u hu
          exact toksOnLine_get n s2.lex.tokens 0 u hT2 hu
        · split
          · split
            · refine ⟨(addDiagnosticForToken_shape s2 _ _ _).2.1.trans
                (e_lex.trans c_lex), ?_⟩
              refine addDiagnosticForToken_lines s2 _ _ _ n e_d ?_
              intro u hu
              exact toksOnLine_get n s2.lex.tokens 0 u hT2 hu
            · exact ⟨e_lex.trans c_lex, e_d⟩
          · exact ⟨e_lex.trans c_lex, e_d⟩
      · split
        · obtain ⟨s_lex, s_d⟩ := scanForErrantKeyword_lines r.2 "#if" _ n hT1 hd1
          exact ⟨s_lex.trans c_lex, s_d⟩
        · exact ⟨c_lex, hd1⟩
    · dsimp only
      split
      · obtain ⟨s_lex, s_d⟩ := scanForErrantKeyword_lines s "#if" _ n hT hd
        exact ⟨s_lex, s_d⟩
      · exact ⟨rfl, hd⟩

theorem parseIfDefDirective_lines (s : Parser) (n : Nat)
    (hT : ToksOnLine n s.lex.tokens) (hd : DiagsOnLine n s.diagnostics) :
    (parseIfDefDirective s).lex = s.lex ∧
    DiagsOnLine n (parseIfDefDirective s).diagnostics := by
  unfold parseIfDefDirective
  split
  · exact ⟨rfl, hd⟩
  · split
    · rename_i hpos
      obtain ⟨c_lex, c_diag, _, _, _⟩ :=
        expectTokenWithText_shape s TokenType.Keyword "#ifdef"
      set r := expectTokenWithText s TokenType.Keyword "#ifdef" with hr
      have hT1 : ToksOnLine n r.2.lex.tokens := by rw [c_lex]; exact hT
      have hd1 : DiagsOnLine n r.2.diagnostics := by rw [c_diag]; exact hd
      dsimp only
      split
      · obtain ⟨n_lex, n_diag, _, _, _⟩ := expectToken_shape r.2 TokenType.Name
        set rn := expectToken r.2 TokenType.Name with hrn
        have hT2 : ToksOnLine n rn.2.lex.tokens := by rw [n_lex]; exact hT1
        have hd2 : DiagsOnLine n rn.2.diagnostics := by rw [n_diag]; exact hd1
        dsimp only
        split
        · rename_i nameTok hname
          set s2 := (if !(isLocalLabel nameTok) then
              { rn.2 with symbolUses := addUse rn.2.symbolUses nameTok }
            else rn.2) with hs2
          have h2_lex : s2.lex = rn.2.lex := by rw [hs2]; split <;> rfl
          have h2_diag : s2.diagnostics = rn.2.diagnostics := by
            rw [hs2]; split <;> rfl
          have hT3 : ToksOnLine n s2.lex.tokens := by rw [h2_lex]; exact hT2
          have hd3 : DiagsOnLine n s2.diagnostics := by rw [h2_diag]; exact hd2
          split
          · split
            · refine ⟨(addDiagnosticForToken_shape s2 _ _ _).2.1.trans
                (h2_lex.trans (n_lex.trans c_lex)), ?_⟩
              refine addDiagnosticForToken_lines s2 _ _ _ n hd3 ?_
              intro u hu
              exact toksOnLine_get n s2.lex.tokens 0 u hT3 hu
            · exact ⟨h2_lex.trans (n_lex.trans c_lex), hd3⟩
          · exact ⟨h2_lex.trans (n_lex.trans c_lex), hd3⟩
        · refine ⟨(addDiagnosticForToken_shape rn.2 _ _ _).2.1.trans
            (n_lex.trans c_lex), ?_⟩
          refine addDiagnosticForToken_lines rn.2 _ _ _ n hd2 ?_
          intro u hu
          exact toksOnLine_get n rn.2.lex.tokens 0 u hT2 hu
      · split
        · obtain ⟨s_lex, s_d⟩ := scanForErrantKeyword_lines r.2 "#ifdef" _ n hT1 hd1
          exact ⟨s_lex.trans c_lex, s_d⟩
        · exact ⟨c_lex, hd1⟩
    · dsimp only
      split
      · obtain ⟨s_lex, s_d⟩ := scanForErrantKeyword_lines s "#ifdef" _ n hT hd
        exact ⟨s_lex, s_d⟩
      · exact ⟨rfl, hd⟩

theorem handleUnrecognizedHashDirective_lines (s : Parser) (n : Nat)
    (hT : ToksOnLine n s.lex.tokens) (hd : DiagsOnLine n s.diagnostics) :
    (handleUnrecognizedHashDirective s).lex = s.lex ∧
    DiagsOnLine n (handleUnrecognizedHashDirective s).diagnostics := by
  unfold handleUnrecognizedHashDirective
  split
  · exact ⟨rfl, hd⟩
  · split
    · obtain ⟨c_lex, c_diag, _, _, _⟩ :=
        expectTokenWithText_shape s TokenType.Operator "#"
      set r := expectTokenWithText s TokenType.Operator "#" with hr
      have hT1 : ToksOnLine n r.2.lex.tokens := by rw [c_lex]; exact hT
      have hd1 : DiagsOnLine n r.2.diagnostics := by rw [c_diag]; exact hd
      dsimp only
      split
      · refine ⟨(addDiagnosticForToken_shape r.2 _ _ _).2.1.trans c_lex, ?_⟩
        refine addDiagnosticForToken_lines r.2 _ _ _ n hd1 ?_
        intro u hu
        exact toksOnLine_get n r.2.lex.tokens 0 u hT1 hu
      · exact ⟨c_lex, hd1⟩
    · dsimp only
      exact ⟨rfl, hd⟩

theorem parseMacroArgsLoop_lines (fuel : Nat) (s : Parser) (n : Nat)
    (hT : ToksOnLine n s.lex.tokens) (hd : DiagsOnLine n s.diagnostics) :
    (parseMacroArgsLoop fuel s).lex = s.lex ∧
    DiagsOnLine n (parseMacroArgsLoop fuel s).diagnostics := by
  induction fuel generalizing s with
  | zero => exact ⟨rfl, hd⟩
  | succ m ih =>
    unfold parseMacroArgsLoop
    obtain ⟨n_lex, n_diag, _, _, _⟩ := expectToken_shape s TokenType.Name
    set rn := expectToken s TokenType.Name with hrn
    have hT1 : ToksOnLine n rn.2.lex.tokens := by rw [n_lex]; exact hT
    have hd1 : DiagsOnLine n rn.2.diagnostics := by rw [n_diag]; exact hd
    dsimp only
    split
    · exact ⟨n_lex, hd1⟩
    · obtain ⟨c_lex, c_diag, _, _, _⟩ :=
        expectTokenWithText_shape rn.2 TokenType.Operator ","
      set rc := expectTokenWithText rn.2 TokenType.Operator "," with hrc
      have hT2 : ToksOnLine n rc.2.lex.tokens := by rw [c_lex]; exact hT1
      have hd2 : DiagsOnLine n rc.2.diagnostics := by rw [c_diag]; exact hd1
      split
      · exact ⟨c_lex.trans n_lex, hd2⟩
      · obtain ⟨i_lex, i_d⟩ := ih rc.2 hT2 hd2
        exact ⟨i_lex.trans (c_lex.trans n_lex), i_d⟩

theorem parseMacroDefinitionStart_lines (s : Parser) (n : Nat)
    (hT : ToksOnLine n s.lex.tokens) (hd : DiagsOnLine n s.diagnostics) :
    (parseMacroDefinitionStart s).lex = s.lex ∧
    DiagsOnLine n (parseMacroDefinitionStart s).diagnostics := by
  unfold parseMacroDefinitionStart
  split
  · exact ⟨rfl, hd⟩
  · obtain ⟨k_lex, k_diag, _, _, _⟩ :=
      expectTokenWithText_shape s TokenType.Keyword "macro"
    set r := expectTokenWithText s TokenType.Keyword "macro" with hr
    have hT1 : ToksOnLine n r.2.lex.tokens := by rw [k_lex]; exact hT
    have hd1 : DiagsOnLine n r.2.diagnostics := by rw [k_diag]; exact hd
    dsimp only
    split
    · exact ⟨k_lex, hd1⟩
    · obtain ⟨n_lex, n_diag, _, _, n_some⟩ := expectToken_shape r.2 TokenType.Name
      set rn := expectToken r.2 TokenType.Name with hrn
      have hT2 : ToksOnLine n rn.2.lex.tokens := by rw [n_lex]; exact hT1
      have hd2 : DiagsOnLine n rn.2.diagnostics := by rw [n_diag]; exact hd1
      dsimp only
      split
      · rename_i nameTok hname
        have hnl : nameTok.lineNumber = n := by
          have hsome := (n_some nameTok hname).1
          exact toksOnLine_get n r.2.lex.tokens r.2.pos nameTok hT1 hsome
        obtain ⟨o_lex, o_diag, _, _, _⟩ :=
          expectTokenWithText_shape rn.2 TokenType.Operator "("
        set ro := expectTokenWithText rn.2 TokenType.Operator "(" with hro
        have hT3 : ToksOnLine n ro.2.lex.tokens := by rw [o_lex]; exact hT2
        have hd3 : DiagsOnLine n ro.2.diagnostics := by rw [o_diag]; exact hd2
        split
        · refine ⟨(addDiagnosticForToken_shape ro.2 _ _ _).2.1.trans
            (o_lex.trans (n_lex.trans k_lex)), ?_⟩
          refine addDiagnosticForToken_lines ro.2 _ _ _ n hd3 ?_
          intro u hu
          cases hu
          exact hnl
        · obtain ⟨a_lex, a_d⟩ :=
            parseMacroArgsLoop_lines (exprFuel ro.2) ro.2 n hT3 hd3
          set sb := parseMacroArgsLoop (exprFuel ro.2) ro.2 with hsb
          have hT4 : ToksOnLine n sb.lex.tokens := by rw [a_lex]; exact hT3
          obtain ⟨p_lex, p_diag, _, _, _⟩ :=
            expectTokenWithText_shape sb TokenType.Operator ")"
          set rp := expectTokenWithText sb TokenType.Operator ")" with hrp
          have hT5 : ToksOnLine n rp.2.lex.tokens := by rw [p_lex]; exact hT4
          have hd5 : DiagsOnLine n rp.2.diagnostics := by rw [p_diag]; exact a_d
          have hlex5 : rp.2.lex = s.lex :=
            p_lex.trans (a_lex.trans (o_lex.trans (n_lex.trans k_lex)))
          split
          · refine ⟨(addDiagnosticForToken_shape rp.2 _ _ _).2.1.trans hlex5, ?_⟩
            refine addDiagnosticForToken_lines rp.2 _ _ _ n hd5 ?_
            intro u hu
            cases hu
            exact hnl
          · split
            · refine ⟨(addDiagnosticForToken_shape rp.2 _ _ _).2.1.trans hlex5, ?_⟩
              refine addDiagnosticForToken_lines rp.2 _ _ _ n hd5 ?_
              intro u hu
              exact toksOnLine_get n rp.2.lex.tokens rp.2.pos u hT5 hu
            · exact ⟨hlex5, hd5⟩
      · refine ⟨(addDiagnosticForToken_shape rn.2 _ _ _).2.1.trans
          (n_lex.trans k_lex), ?_⟩
        refine addDiagnosticForToken_lines rn.2 _ _ _ n hd2 ?_
        intro u hu
        exact toksOnLine_get n rn.2.lex.tokens rn.2.pos u hT2 hu

theorem parseAssignment_lines (s : Parser) (n : Nat)
    (hT : ToksOnLine n s.lex.tokens) (hd : DiagsOnLine n s.diagnostics) :
    (parseAssignment s).lex = s.lex ∧
    DiagsOnLine n (parseAssignment s).diagnostics := by
  unfold parseAssignment
  split
  · exact ⟨rfl, hd⟩
  · obtain ⟨n_lex, n_diag, _, _, _⟩ := expectToken_shape s TokenType.Name
    set r1 := expectToken s TokenType.Name with hr1
    have hT1 : ToksOnLine n r1.2.lex.tokens := by rw [n_lex]; exact hT
    have hd1 : DiagsOnLine n r1.2.diagnostics := by rw [n_diag]; exact hd
    obtain ⟨b_lex, b_diag, _, _, _⟩ :=
      expectTokenWithText_shape r1.2 TokenType.Operator "&"
    set rb := expectTokenWithText r1.2 TokenType.Operator "&" with hrb
    have hT2 : ToksOnLine n rb.2.lex.tokens := by rw [b_lex]; exact hT1
    have hd2 : DiagsOnLine n rb.2.diagnostics := by rw [b_diag]; exact hd1
    have main : ∀ (u : Parser) (tok : Tok), u.lex = s.lex →
        ToksOnLine n u.lex.tokens → DiagsOnLine n u.diagnostics →
        ((match (expectTokenWithText u TokenType.Operator "=").1 with
          | none =>
            { (expectTokenWithText u TokenType.Operator "=").2 with pos := s.pos }
          | some _ =>
            let rx := expectExpression
              (exprFuel (expectTokenWithText u TokenType.Operator "=").2)
              (expectTokenWithText u TokenType.Operator "=").2 0
            let s5 :=
              if !rx.1 then
                rx.2.addDiagnosticForToken "Invalid assignment expression"
                  DiagnosticSeverity.Error (rx.2.lex.tokens.get? (rx.2.pos - 1))
              else
                if tok.normText ≠ some "*" && tok.normText ≠ some "&" then
                  { rx.2 with symbolDefinitions := rx.2.symbolDefinitions ++ [tok] }
                else rx.2
            { s5 with pos := s5.lex.tokens.length }).lex = s.lex ∧
        DiagsOnLine n (match (expectTokenWithText u TokenType.Operator "=").1 with
          | none =>
            { (expectTokenWithText u TokenType.Operator "=").2 with pos := s.pos }
          | some _ =>
            let rx := expectExpression
              (exprFuel (expectTokenWithText u TokenType.Operator "=").2)
              (expectTokenWithText u TokenType.Operator "=").2 0
            let s5 :=
              if !rx.1 then
                rx.2.addDiagnosticForToken "Invalid assignment expression"
                  DiagnosticSeverity.Error (rx.2.lex.tokens.get? (rx.2.pos - 1))
              else
                if tok.normText ≠ some "*" && tok.normText ≠ some "&" then
                  { rx.2 with symbolDefinitions := rx.2.symbolDefinitions ++ [tok] }
                else rx.2
            { s5 with pos := s5.lex.tokens.length }).diagnostics) := by
      intro u tok hu_lex hTu hdu
      obtain ⟨q_lex, q_diag, _, _, _⟩ :=
        expectTokenWithText_shape u TokenType.Operator "="
      set re := expectTokenWithText u TokenType.Operator "=" with hre
      have hT3 : ToksOnLine n re.2.lex.tokens := by rw [q_lex]; exact hTu
      have hd3 : DiagsOnLine n re.2.diagnostics := by rw [q_diag]; exact hdu
      rcases hq : re.1 with _ | tq
      · simp only [hq]
        exact ⟨q_lex.trans hu_lex, hd3⟩
      · simp only [hq]
        obtain ⟨x_lex, x_d⟩ :=
          (exprLines_all (exprFuel re.2)).1 re.2 0 n hT3 hd3
        set rx := (expectExpression (exprFuel re.2) re.2 0).2 with hrx
        have hT4 : ToksOnLine n rx.lex.tokens := by rw [x_lex]; exact hT3
        have hlex4 : rx.lex = s.lex := x_lex.trans (q_lex.trans hu_lex)
        split
        · refine ⟨(addDiagnosticForToken_shape rx _ _ _).2.1.trans hlex4, ?_⟩
          refine addDiagnosticForToken_lines rx _ _ _ n x_d ?_
          intro w hw
          exact toksOnLine_get n rx.lex.tokens _ w hT4 hw
        · split
          · exact ⟨hlex4, x_d⟩
          · exact ⟨hlex4, x_d⟩
    rcases hn1 : r1.1 with _ | t
    · simp only [hn1]
      rcases hb1 : rb.1 with _ | t
      · simp only [hb1]
        exact ⟨b_lex.trans n_lex, hd2⟩
      · simp only [hb1]
        exact main rb.2 t (b_lex.trans n_lex) hT2 hd2
    · simp only [hn1]
      exact main r1.2 t n_lex hT1 hd1

theorem expectLabel_lines (s : Parser) (n : Nat)
    (hT : ToksOnLine n s.lex.tokens) (hd : DiagsOnLine n s.diagnostics) :
    (expectLabel s).2.lex = s.lex ∧
    DiagsOnLine n (expectLabel s).2.diagnostics := by
  unfold expectLabel
  obtain ⟨n_lex, n_diag, _, _, _⟩ := expectToken_shape s TokenType.Name
  set r := expectToken s TokenType.Name with hr
  have hd1 : DiagsOnLine n r.2.diagnostics := by rw [n_diag]; exact hd
  rcases hn1 : r.1 with _ | tok
  · simp only [hn1]
    exact ⟨n_lex, hd1⟩
  · simp only [hn1]
    obtain ⟨c_lex, c_diag, _, _, _⟩ :=
      expectTokenWithText_shape r.2 TokenType.Operator ":"
    set s2 := (expectTokenWithText r.2 TokenType.Operator ":").2 with hs2
    have hd2 : DiagsOnLine n s2.diagnostics := by rw [c_diag]; exact hd1
    split
    · exact ⟨c_lex.trans n_lex, hd2⟩
    · exact ⟨c_lex.trans n_lex, hd2⟩

theorem parseLabel_lines (s : Parser) (n : Nat)
    (hT : ToksOnLine n s.lex.tokens) (hd : DiagsOnLine n s.diagnostics) :
    (parseLabel s).lex = s.lex ∧
    DiagsOnLine n (parseLabel s).diagnostics := by
  unfold parseLabel
  split
  · exact ⟨rfl, hd⟩
  · split
    · split
      · split
        · split
          · exact expectLabel_lines s n hT hd
          · exact ⟨rfl, hd⟩
        · exact expectLabel_lines s n hT hd
      · exact ⟨rfl, hd⟩
    · exact ⟨rfl, hd⟩

theorem parseMacroUseLoop_lines (fuel : Nat) (s : Parser) (sawComma : Bool)
    (n : Nat)
    (hT : ToksOnLine n s.lex.tokens) (hd : DiagsOnLine n s.diagnostics) :
    (parseMacroUseLoop fuel s sawComma).2.lex = s.lex ∧
    DiagsOnLine n (parseMacroUseLoop fuel s sawComma).2.diagnostics := by
  induction fuel generalizing s sawComma with
  | zero => exact ⟨rfl, hd⟩
  | succ m ih =>
    unfold parseMacroUseLoop
    obtain ⟨p_lex, p_diag, _, _, _⟩ :=
      expectTokenWithText_shape s TokenType.Operator ")"
    set rp := expectTokenWithText s TokenType.Operator ")" with hrp
    have hT1 : ToksOnLine n rp.2.lex.tokens := by rw [p_lex]; exact hT
    have hd1 : DiagsOnLine n rp.2.diagnostics := by rw [p_diag]; exact hd
    rcases hp : rp.1 with _ | tp
    · simp only [hp]
      split
      · refine ⟨(addDiagnosticForToken_shape rp.2 _ _ _).2.1.trans p_lex, ?_⟩
        refine addDiagnosticForToken_lines rp.2 _ _ _ n hd1 ?_
        intro w hw
        exact toksOnLine_get n rp.2.lex.tokens _ w hT1 hw
      · obtain ⟨x_lex, x_d⟩ :=
          (exprLines_all (exprFuel rp.2)).1 rp.2 0 n hT1 hd1
        set rx := (expectExpression (exprFuel rp.2) rp.2 0).2 with hrx
        have hT2 : ToksOnLine n rx.lex.tokens := by rw [x_lex]; exact hT1
        split
        · refine ⟨(addDiagnosticForToken_shape rx _ _ _).2.1.trans
            (x_lex.trans p_lex), ?_⟩
          refine addDiagnosticForToken_lines rx _ _ _ n x_d ?_
          intro w hw
          exact toksOnLine_get n rx.lex.tokens _ w hT2 hw
        · obtain ⟨c_lex, c_diag, _, _, _⟩ :=
            expectTokenWithText_shape rx TokenType.Operator ","
          set rc := expectTokenWithText rx TokenType.Operator "," with hrc
          have hT3 : ToksOnLine n rc.2.lex.tokens := by rw [c_lex]; exact hT2
          have hd3 : DiagsOnLine n rc.2.diagnostics := by rw [c_diag]; exact x_d
          obtain ⟨i_lex, i_d⟩ := ih rc.2 rc.1.isSome hT3 hd3
          exact ⟨i_lex.trans (c_lex.trans (x_lex.trans p_lex)), i_d⟩
    · simp only [hp]
      exact ⟨p_lex, hd1⟩

theorem parseMacroUse_lines (s : Parser) (n : Nat)
    (hT : ToksOnLine n s.lex.tokens) (hd : DiagsOnLine n s.diagnostics) :
    (parseMacroUse s).lex = s.lex ∧
    DiagsOnLine n (parseMacroUse s).diagnostics := by
  unfold parseMacroUse
  split
  · exact ⟨rfl, hd⟩
  · obtain ⟨n_lex, n_diag, _, _, _⟩ := expectToken_shape s TokenType.Name
    set r := expectToken s TokenType.Name with hr
    have hT1 : ToksOnLine n r.2.lex.tokens := by rw [n_lex]; exact hT
    have hd1 : DiagsOnLine n r.2.diagnostics := by rw [n_diag]; exact hd
    rcases hn1 : r.1 with _ | macroUseTok
    · simp only [hn1]
      exact ⟨n_lex, hd1⟩
    · simp only [hn1]
      obtain ⟨o_lex, o_diag, _, _, _⟩ :=
        expectTokenWithText_shape r.2 TokenType.Operator "("
      set ro := expectTokenWithText r.2 TokenType.Operator "(" with hro
      have hT2 : ToksOnLine n ro.2.lex.tokens := by rw [o_lex]; exact hT1
      have hd2 : DiagsOnLine n ro.2.diagnostics := by rw [o_diag]; exact hd1
      have htokn : macroUseTok.lineNumber = n := by
        have h5 := (expectToken_shape s TokenType.Name).2.2.2.2 macroUseTok
        rw [← hr] at h5
        exact toksOnLine_get n s.lex.tokens s.pos macroUseTok hT (h5 hn1).1
      rcases ho : ro.1 with _ | t2
      · simp only [ho]
        refine ⟨(addDiagnosticForToken_shape ro.2 _ _ _).2.1.trans
          (o_lex.trans n_lex), ?_⟩
        refine addDiagnosticForToken_lines ro.2 _ _ _ n hd2 ?_
        intro w hw
        rw [Option.some.inj hw.symm]
        exact htokn
      · simp only [ho]
        obtain ⟨l_lex, l_d⟩ :=
          parseMacroUseLoop_lines (exprFuel ro.2) ro.2 true n hT2 hd2
        set rl := parseMacroUseLoop (exprFuel ro.2) ro.2 true with hrl
        have hT3 : ToksOnLine n rl.2.lex.tokens := by rw [l_lex]; exact hT2
        split
        · split
          · refine ⟨(addDiagnosticForToken_shape rl.2 _ _ _).2.1.trans
              (l_lex.trans (o_lex.trans n_lex)), ?_⟩
            refine addDiagnosticForToken_lines rl.2 _ _ _ n l_d ?_
            intro w hw
            exact toksOnLine_get n rl.2.lex.tokens _ w hT3 hw
          · exact ⟨l_lex.trans (o_lex.trans n_lex), l_d⟩
        · exact ⟨l_lex.trans (o_lex.trans n_lex), l_d⟩

theorem parsePseudoOp_lines (s : Parser) (n : Nat)
    (hT : ToksOnLine n s.lex.tokens) (hd : DiagsOnLine n s.diagnostics) :
    (parsePseudoOp s).lex = s.lex ∧
    DiagsOnLine n (parsePseudoOp s).diagnostics := by
  unfold parsePseudoOp
  split
  · exact ⟨rfl, hd⟩
  · obtain ⟨k_lex, k_diag, _, _, _⟩ := expectToken_shape s TokenType.Keyword
    set r := expectToken s TokenType.Keyword with hr
    have hd1 : DiagsOnLine n r.2.diagnostics := by rw [k_diag]; exact hd
    rcases hn1 : r.1 with _ | t
    · simp only [hn1]
      exact ⟨k_lex, hd1⟩
    · simp only [hn1]
      exact ⟨k_lex, hd1⟩

theorem parseOpcode_lines (s : Parser) (n : Nat)
    (hT : ToksOnLine n s.lex.tokens) (hd : DiagsOnLine n s.diagnostics) :
    (parseOpcode s).lex = s.lex ∧
    DiagsOnLine n (parseOpcode s).diagnostics := by
  unfold parseOpcode
  obtain ⟨k_lex, k_diag, _, _, _⟩ := expectToken_shape s TokenType.Opcode
  set r := expectToken s TokenType.Opcode with hr
  have hd1 : DiagsOnLine n r.2.diagnostics := by rw [k_diag]; exact hd
  rcases hn1 : r.1 with _ | t
  · simp only [hn1]
    exact ⟨k_lex, hd1⟩
  · simp only [hn1]
    exact ⟨k_lex, hd1⟩

theorem parseLineParser_diags (text : List Char) (n : Nat) :
    DiagsOnLine n (parseLineParser text n).diagnostics := by
  unfold parseLineParser
  have hT0 : ToksOnLine n ((Parser.new text n).startParse).lex.tokens :=
    lexLine_toks text n
  have hd0 : DiagsOnLine n ((Parser.new text n).startParse).diagnostics := by
    intro d hd; cases hd
  set p0 := (Parser.new text n).startParse with hp0
  obtain ⟨l1, d1⟩ := parseSoloTokens_lines p0 n hT0 hd0
  set p1 := parseSoloTokens p0 with hp1
  have hT1 : ToksOnLine n p1.lex.tokens := by rw [l1]; exact hT0
  obtain ⟨l2, d2⟩ := parseIfDirective_lines p1 n hT1 d1
  set p2 := parseIfDirective p1 with hp2
  have hT2 : ToksOnLine n p2.lex.tokens := by rw [l2]; exact hT1
  obtain ⟨l3, d3⟩ := parseIfDefDirective_lines p2 n hT2 d2
  set p3 := parseIfDefDirective p2 with hp3
  have hT3 : ToksOnLine n p3.lex.tokens := by rw [l3]; exact hT2
  obtain ⟨l4, d4⟩ := handleUnrecognizedHashDirective_lines p3 n hT3 d3
  set p4 := handleUnrecognizedHashDirective p3 with hp4
  have hT4 : ToksOnLine n p4.lex.tokens := by rw [l4]; exact hT3
  obtain ⟨l5, d5⟩ := parseMacroDefinitionStart_lines p4 n hT4 d4
  set p5 := parseMacroDefinitionStart p4 with hp5
  have hT5 : ToksOnLine n p5.lex.tokens := by rw [l5]; exact hT4
  obtain ⟨l6, d6⟩ := parseAssignment_lines p5 n hT5 d5
  set p6 := parseAssignment p5 with hp6
  have hT6 : ToksOnLine n p6.lex.tokens := by rw [l6]; exact hT5
  obtain ⟨l7, d7⟩ := parseLabel_lines p6 n hT6 d6
  set p7 := parseLabel p6 with hp7
  have hT7 : ToksOnLine n p7.lex.tokens := by rw [l7]; exact hT6
  obtain ⟨l8, d8⟩ := parseMacroUse_lines p7 n hT7 d7
  set p8 := parseMacroUse p7 with hp8
  have hT8 : ToksOnLine n p8.lex.tokens := by rw [l8]; exact hT7
  obtain ⟨l9, d9⟩ := parsePseudoOp_lines p8 n hT8 d8
  set p9 := parsePseudoOp p8 with hp9
  have hT9 : ToksOnLine n p9.lex.tokens := by rw [l9]; exact hT8
  obtain ⟨l10, d10⟩ := parseOpcode_lines p9 n hT9 d9
  set p10 := parseOpcode p9 with hp10
  have hT10 : ToksOnLine n p10.lex.tokens := by rw [l10]; exact hT9
  dsimp only
  split
  · refine addDiagnosticForTokenRange_lines p10 _ _ _ _ n d10 ?_ ?_ <;>
      · intro w hw
        exact toksOnLine_get n p10.lex.tokens 0 w hT10 hw
  · exact d10

set_option maxHeartbeats 1000000 in
/-- C10: every diagnostic produced by `parseLine(text, n)` has both of
its range endpoints on line `n`: each one is anchored at tokens lexed
with `lineNumber = n`, and the dropped lexer diagnostics (C3) cannot
contribute. -/
theorem parseLine_diagnostics_single_line (text : List Char) (n : Nat)
    (r : ParserResult) (d : Diagnostic)
    (h1 : parseLine text n = some r) (h2 : d ∈ r.diagnostics) :
    d.range.start.line = n ∧ d.range.stop.line = n := by
  have hD := parseLineParser_diags text n
  unfold parseLine at h1
  dsimp only at h1
  split at h1
  · exact Option.noConfusion h1
  · rw [Option.some_inj] at h1
    rw [← h1] at h2
    dsimp only at h2
    exact hD d h2

/-- C9: `expectToken` and `expectTokenWithText` either return the
token at the cursor and advance the cursor by exactly one — exactly
when the cursor is in range and the token there has the requested type
(and normalized text) — or return `undefined` and leave the whole
state unchanged. -/
theorem expectToken_frame (s : Parser) (ty : TokenType) (txt : String)
    (h : s.pos ≤ s.lex.tokens.length) :
    ((∀ t, (expectToken s ty).1 = some t ↔
        (s.lex.tokens.get? s.pos = some t ∧ t.type = ty)) ∧
     ((expectToken s ty).1 = none → (expectToken s ty).2 = s) ∧
     (∀ t, (expectToken s ty).1 = some t →
        (expectToken s ty).2 = { s with pos := s.pos + 1 })) ∧
    ((∀ t, (expectTokenWithText s ty txt).1 = some t ↔
        (s.lex.tokens.get? s.pos = some t ∧ t.type = ty ∧
          t.normText = some txt)) ∧
     ((expectTokenWithText s ty txt).1 = none →
        (expectTokenWithText s ty txt).2 = s) ∧
     (∀ t, (expectTokenWithText s ty txt).1 = some t →
        (expectTokenWithText s ty txt).2 = { s with pos := s.pos + 1 })) := by
  constructor
  · unfold expectToken
    split
    · rename_i hdone
      have hlen : s.pos = s.lex.tokens.length := by
        simpa [Parser.isDone] using hdone
      have hg : s.lex.tokens.get? s.pos = none := by
        rw [List.get?_eq_none]; omega
      have hg2 : s.lex.tokens[s.pos]? = none := by
        rw [← List.get?_eq_getElem?]; exact hg
      refine ⟨?_, fun _ => rfl, ?_⟩
      · intro t
        simp [hg2]
      · intro t ht
        cases ht
    · rename_i hdone
      rcases hg : s.lex.tokens.get? s.pos with _ | t0
      · exfalso
        have : s.lex.tokens.length ≤ s.pos := List.get?_eq_none.mp hg
        have : s.pos ≠ s.lex.tokens.length := by
          simpa [Parser.isDone] using hdone
        omega
      · by_cases hty : t0.type = ty
        · refine ⟨?_, ?_, ?_⟩
          · intro t
            simp only [hty, if_pos rfl, hg]
            constructor
            · intro he
              have := Option.some.inj he
              subst this
              exact ⟨rfl, hty⟩
            · rintro ⟨he, -⟩
              exact (Option.some.inj he) ▸ rfl
          · intro hnone
            simp [hty] at hnone
          · intro t ht
            simp [hty]
        · refine ⟨?_, fun _ => ?_, ?_⟩
          · intro t
            simp only [hty, if_neg, hg]
            constructor
            · intro he; cases he
            · rintro ⟨he, h2⟩
              exact absurd ((Option.some.inj he) ▸ h2) hty
          · simp [hty]
          · intro t ht
            simp [hty] at ht
  · unfold expectTokenWithText
    split
    · rename_i hdone
      have hlen : s.pos = s.lex.tokens.length := by
        simpa [Parser.isDone] using hdone
      have hg : s.lex.tokens.get? s.pos = none := by
        rw [List.get?_eq_none]; omega
      have hg2 : s.lex.tokens[s.pos]? = none := by
        rw [← List.get?_eq_getElem?]; exact hg
      refine ⟨?_, fun _ => rfl, ?_⟩
      · intro t
        simp [hg2]
      · intro t ht
        cases ht
    · rename_i hdone
      rcases hg : s.lex.tokens.get? s.pos with _ | t0
      · exfalso
        have : s.lex.tokens.length ≤ s.pos := List.get?_eq_none.mp hg
        have : s.pos ≠ s.lex.tokens.length := by
          simpa [Parser.isDone] using hdone
        omega
      · by_cases hb : (t0.type = ty && t0.normText = some txt) = true
        · have hb2 := hb
          simp only [Bool.and_eq_true, decide_eq_true_eq] at hb2
          refine ⟨?_, ?_, ?_⟩
          · intro t
            simp only [hb, if_pos rfl, hg]
            constructor
            · intro he
              have := Option.some.inj he
              subst this
              exact ⟨rfl, hb2.1, hb2.2⟩
            · rintro ⟨he, -⟩
              exact (Option.some.inj he) ▸ rfl
          · intro hnone
            simp [hb] at hnone
          · intro t ht
            simp [hb]
        · have hb2 := hb
          simp only [Bool.and_eq_true, decide_eq_true_eq, not_and] at hb2
          refine ⟨?_, fun _ => ?_, ?_⟩
          · intro t
            simp only [hb, if_neg, hg]
            constructor
            · intro he; cases he
            · rintro ⟨he, h2, h3⟩
              have := Option.some.inj he
              subst this
              exact absurd h3 (hb2 h2)
          · simp [hb]
          · intro t ht
            simp [hb] at ht

set_option maxRecDepth 1000000 in
theorem expectToken_frame_witness :
    ((∀ t, (expectToken ((Parser.new "name".data 7).startParse)
          TokenType.Name).1 = some t ↔
        (((Parser.new "name".data 7).startParse).lex.tokens.get?
            ((Parser.new "name".data 7).startParse).pos = some t ∧
          t.type = TokenType.Name)) ∧
     ((expectToken ((Parser.new "name".data 7).startParse)
          TokenType.Name).1 = none →
        (expectToken ((Parser.new "name".data 7).startParse)
          TokenType.Name).2 = (Parser.new "name".data 7).startParse) ∧
     (∀ t, (expectToken ((Parser.new "name".data 7).startParse)
          TokenType.Name).1 = some t →
        (expectToken ((Parser.new "name".data 7).startParse)
          TokenType.Name).2 =
          { (Parser.new "name".data 7).startParse with
            pos := ((Parser.new "name".data 7).startParse).pos + 1 })) ∧
    ((∀ t, (expectTokenWithText ((Parser.new "name".data 7).startParse)
          TokenType.Name "name").1 = some t ↔
        (((Parser.new "name".data 7).startParse).lex.tokens.get?
            ((Parser.new "name".data 7).startParse).pos = some t ∧
          t.type = TokenType.Name ∧ t.normText = some "name")) ∧
     ((expectTokenWithText ((Parser.new "name".data 7).startParse)
          TokenType.Name "name").1 = none →
        (expectTokenWithText ((Parser.new "name".data 7).startParse)
          TokenType.Name "name").2 = (Parser.new "name".data 7).startParse) ∧
     (∀ t, (expectTokenWithText ((Parser.new "name".data 7).startParse)
          TokenType.Name "name").1 = some t →
        (expectTokenWithText ((Parser.new "name".data 7).startParse)
          TokenType.Name "name").2 =
          { (Parser.new "name".data 7).startParse with
            pos := ((Parser.new "name".data 7).startParse).pos + 1 })) :=
  expectToken_frame ((Parser.new "name".data 7).startParse)
    TokenType.Name "name" (by decide)

set_option maxRecDepth 1000000 in
theorem expectExpression_cursor_monotone_witness :
    ((Parser.new "1+2".data 0).startParse).pos ≤
      (expectExpression (exprFuel ((Parser.new "1+2".data 0).startParse))
        ((Parser.new "1+2".data 0).startParse) 0).2.pos ∧
    (expectExpression (exprFuel ((Parser.new "1+2".data 0).startParse))
        ((Parser.new "1+2".data 0).startParse) 0).2.pos ≤
      ((Parser.new "1+2".data 0).startParse).lex.tokens.length ∧
    ((expectExpression (exprFuel ((Parser.new "1+2".data 0).startParse))
        ((Parser.new "1+2".data 0).startParse) 0).1 = true →
      ((Parser.new "1+2".data 0).startParse).pos <
        (expectExpression (exprFuel ((Parser.new "1+2".data 0).startParse))
          ((Parser.new "1+2".data 0).startParse) 0).2.pos ∧
      (expectExpression (exprFuel ((Parser.new "1+2".data 0).startParse))
          ((Parser.new "1+2".data 0).startParse) 0).2.diagnostics =
        ((Parser.new "1+2".data 0).startParse).diagnostics) ∧
    ((expectExpression (exprFuel ((Parser.new "1+2".data 0).startParse))
        ((Parser.new "1+2".data 0).startParse) 0).1 = false →
      (expectExpression (exprFuel ((Parser.new "1+2".data 0).startParse))
          ((Parser.new "1+2".data 0).startParse) 0).2.diagnostics.length ≤
        ((Parser.new "1+2".data 0).startParse).diagnostics.length +
          ((expectExpression (exprFuel ((Parser.new "1+2".data 0).startParse))
            ((Parser.new "1+2".data 0).startParse) 0).2.pos -
            ((Parser.new "1+2".data 0).startParse).pos) + 1) :=
  expectExpression_cursor_monotone
    (exprFuel ((Parser.new "1+2".data 0).startParse))
    ((Parser.new "1+2".data 0).startParse) 0 (by decide)

set_option maxRecDepth 1000000 in
theorem parseLine_diagnostics_single_line_witness :
    ({ severity := DiagnosticSeverity.Error,
       range := { start := { line := 3, character := 0 },
                  stop := { line := 3, character := 6 } },
       message := "Missing symbol for #ifdef" } : Diagnostic).range.start.line
        = 3 ∧
    ({ severity := DiagnosticSeverity.Error,
       range := { start := { line := 3, character := 0 },
                  stop := { line := 3, character := 6 } },
       message := "Missing symbol for #ifdef" } : Diagnostic).range.stop.line
        = 3 :=
  parseLine_diagnostics_single_line "#ifdef".data 3
    { diagnostics :=
        [{ severity := DiagnosticSeverity.Error,
           range := { start := { line := 3, character := 0 },
                      stop := { line := 3, character := 6 } },
           message := "Missing symbol for #ifdef" }],
      symbolDefinitions := [], symbolUses := [],
      macroDefinitions := [], macroUses := [] }
    { severity := DiagnosticSeverity.Error,
      range := { start := { line := 3, character := 0 },
                 stop := { line := 3, character := 6 } },
      message := "Missing symbol for #ifdef" }
    (by decide) (by decide)

theorem countWhile_le (f : Char → Bool) (l : List Char) :
    countWhile f l ≤ l.length := by
  induction l with
  | nil => simp [countWhile]
  | cons c cs ih =>
    unfold countWhile
    split
    · simpa using Nat.succ_le_succ ih
    · exact Nat.zero_le _

theorem countWhile_spec (f : Char → Bool) (l : List Char) (i : Nat)
    (h : i < countWhile f l) : ∃ c, l.get? i = some c ∧ f c = true := by
  induction l generalizing i with
  | nil => simp [countWhile] at h
  | cons c cs ih =>
    unfold countWhile at h
    split at h
    · rename_i hc
      cases i with
      | zero => exact ⟨c, rfl, hc⟩
      | succ j =>
        obtain ⟨d, hd, hf⟩ := ih j (by omega)
        exact ⟨d, hd, hf⟩
    · omega

theorem countFrom_le (text : List Char) (pos : Nat) (f : Char → Bool) :
    countFrom text pos f ≤ text.length - pos := by
  have h := countWhile_le f (text.drop pos)
  rw [List.length_drop] at h
  exact h

theorem countFrom_spec (text : List Char) (pos : Nat) (f : Char → Bool)
    (i : Nat) (h : i < countFrom text pos f) :
    ∃ c, charAt text (pos + i) = some c ∧ f c = true := by
  obtain ⟨c, hc, hf⟩ := countWhile_spec f (text.drop pos) i h
  refine ⟨c, ?_, hf⟩
  rw [charAt, ← List.get?_drop]
  exact hc

theorem countFrom_pos (text : List Char) (pos : Nat) (f : Char → Bool)
    (c : Char) (hc : charAt text pos = some c) (hf : f c = true) :
    0 < countFrom text pos f := by
  unfold countFrom
  rcases hdrop : text.drop pos with _ | ⟨a, l⟩
  · exfalso
    have h0 : (text.drop pos).get? 0 = text.get? pos := by
      rw [List.get?_drop, Nat.add_zero]
    rw [hdrop] at h0
    rw [charAt] at hc
    rw [hc] at h0
    cases h0
  · have h0 : (text.drop pos).get? 0 = text.get? pos := by
      rw [List.get?_drop, Nat.add_zero]
    rw [hdrop] at h0
    rw [charAt] at hc
    rw [hc] at h0
    have ha : a = c := Option.some.inj h0
    subst ha
    unfold countWhile
    rw [if_pos hf]
    omega

theorem ciPrefix_length (ks cs : List Char) (h : ciPrefix ks cs = true) :
    ks.length ≤ cs.length := by
  induction ks generalizing cs with
  | nil => simp
  | cons k ks ih =>
    cases cs with
    | nil => simp [ciPrefix] at h
    | cons c cs =>
      unfold ciPrefix at h
      simp only [Bool.and_eq_true] at h
      simpa using Nat.succ_le_succ (ih cs h.2)

theorem litPrefix_length (ks cs : List Char) (h : litPrefix ks cs = true) :
    ks.length ≤ cs.length := by
  induction ks generalizing cs with
  | nil => simp
  | cons k ks ih =>
    cases cs with
    | nil => simp [litPrefix] at h
    | cons c cs =>
      unfold litPrefix at h
      simp only [Bool.and_eq_true] at h
      simpa using Nat.succ_le_succ (ih cs h.2)

theorem matchKeywordAt_bound (kw : String) (text : List Char) (pos : Nat)
    (hk : 0 < kw.length) (h : matchKeywordAt kw text pos = true) :
    pos < text.length ∧ pos + kw.length ≤ text.length := by
  unfold matchKeywordAt at h
  simp only [Bool.and_eq_true] at h
  have hlen := ciPrefix_length kw.data (text.drop pos) h.1
  rw [List.length_drop] at hlen
  have hkd : kw.data.length = kw.length := rfl
  rw [hkd] at hlen
  constructor <;> omega

theorem matchOperatorAt_bound (kw : String) (text : List Char) (pos : Nat)
    (hk : 0 < kw.length) (h : matchOperatorAt kw text pos = true) :
    pos < text.length ∧ pos + kw.length ≤ text.length := by
  unfold matchOperatorAt at h
  have hlen := litPrefix_length kw.data (text.drop pos) h
  rw [List.length_drop] at hlen
  have hkd : kw.data.length = kw.length := rfl
  rw [hkd] at hlen
  constructor <;> omega

theorem charAt_lt (text : List Char) (pos : Nat) (c : Char)
    (h : charAt text pos = some c) : pos < text.length :=
  (List.get?_eq_some.mp h).1

theorem nameMatchLen_bound (text : List Char) (pos n : Nat)
    (h : nameMatchLen text pos = some n) :
    0 < n ∧ pos < text.length ∧ pos + n ≤ text.length := by
  unfold nameMatchLen at h
  rcases hg : charAt text pos with _ | c
  · rw [hg] at h; exact Option.noConfusion h
  · have hlt := charAt_lt text pos c hg
    simp only [hg] at h
    split at h
    · have hn := (Option.some.inj h).symm
      omega
    · split at h
      · have hn := (Option.some.inj h).symm
        omega
      · split at h
        · have hn := (Option.some.inj h).symm
          have hcf := countFrom_le text (pos + 1) isNameTail
          omega
        · split at h
          · split at h
            · rename_i hdollar
              have hn := (Option.some.inj h).symm
              have hd := charAt_lt text _ _ hdollar
              omega
            · cases h
          · cases h

theorem numberMatchLen_bound (text : List Char) (pos n : Nat)
    (h : numberMatchLen text pos = some n) :
    0 < n ∧ pos < text.length ∧ pos + n ≤ text.length := by
  unfold numberMatchLen at h
  rcases hg : charAt text pos with _ | c
  · rw [hg] at h; exact Option.noConfusion h
  · have hlt := charAt_lt text pos c hg
    simp only [hg] at h
    split at h
    · split at h
      · have hn := (Option.some.inj h).symm
        have hcf := countFrom_le text (pos + 1) isHexDigit
        omega
      · cases h
    · split at h
      · split at h
        · have hn := (Option.some.inj h).symm
          have hcf := countFrom_le text (pos + 1) isBinDigit
          omega
        · cases h
      · split at h
        · split at h
          · have hn := (Option.some.inj h).symm
            have hcf := countFrom_le text (pos + 1) isOctDigit
            omega
          · cases h
        · split at h
          · split at h
            · have hn := (Option.some.inj h).symm
              have hcf := countFrom_le text (pos + 1) Char.isDigit
              omega
            · cases h
          · split at h
            · rename_i hdig
              have hpos := countFrom_pos text pos Char.isDigit c hg hdig
              split at h
              · rename_i hdot
                have hn := (Option.some.inj h).symm
                have hd := charAt_lt text _ _ hdot
                have hcf := countFrom_le text
                  (pos + countFrom text pos Char.isDigit + 1) Char.isDigit
                omega
              · have hn := (Option.some.inj h).symm
                have hcf := countFrom_le text pos Char.isDigit
                omega
            · cases h

theorem lexStrLoop_bound (text : List Char) (q : Char) (fuel : Nat) :
    ∀ (e : Nat) (acc : List Char), e ≤ text.length + 1 →
    e ≤ (lexStrLoop text q fuel e acc).2.1 ∧
    (lexStrLoop text q fuel e acc).2.1 ≤ text.length + 1 := by
  induction fuel with
  | zero => intro e acc h; exact ⟨le_refl e, h⟩
  | succ m ih =>
    intro e acc h
    unfold lexStrLoop
    split
    · rename_i hlt
      split
      · exact ⟨Nat.le_succ e, by show e + 1 ≤ text.length + 1; omega⟩
      · split
        · have hr := ih (e + 2) (acc ++ (charAt text (e + 1)).toList) (by omega)
          exact ⟨by omega, hr.2⟩
        · have hr := ih (e + 1) (acc ++ (charAt text e).toList) (by omega)
          exact ⟨by omega, hr.2⟩
    · exact ⟨le_refl e, h⟩

set_option maxRecDepth 10000 in
theorem keywords_pos : ∀ kw ∈ keywords, 0 < kw.length := by decide

set_option maxRecDepth 10000 in
theorem opcodes_pos : ∀ kw ∈ opcodes, 0 < kw.length := by decide

set_option maxRecDepth 10000 in
theorem operators_pos : ∀ kw ∈ operators, 0 < kw.length := by decide

theorem tokSpaceCover_coverAt (s : Lexer) (p : Nat) (h : TokSpaceCover s p) :
    coverAt s p :=
  h.elim Or.inl (fun h2 => Or.inr (Or.inl h2))

theorem lexInv_final (s : Lexer) (h : LexInv s) : LexFinal s :=
  ⟨h.2.2.2.1, h.2.2.1,
   fun p h1 h2 => tokSpaceCover_coverAt s p (h.2.2.2.2.2 p h1 h2)⟩

theorem inTokenAt_append (ts : List Tok) (t : Tok) (p : Nat)
    (h : inTokenAt ts p) : inTokenAt (ts ++ [t]) p := by
  obtain ⟨u, hu, h1, h2⟩ := h
  exact ⟨u, List.mem_append.mpr (Or.inl hu), h1, h2⟩

theorem chain'_append_tok (ts : List Tok) (t : Tok)
    (hc : List.Chain' (fun a b => a.stop ≤ b.start) ts)
    (hlast : ∀ u ∈ ts, u.stop ≤ t.start) :
    List.Chain' (fun a b => a.stop ≤ b.start) (ts ++ [t]) := by
  rw [List.chain'_append]
  refine ⟨hc, List.chain'_singleton t, ?_⟩
  intro x hx y hy
  have hxm : x ∈ ts := by
    obtain ⟨hne, hxe⟩ := List.mem_getLast?_eq_getLast hx
    rw [hxe]
    exact List.getLast_mem hne
  have hyt : y = t := by
    cases hy
    rfl
  subst hyt
  exact hlast x hxm

/-- The common one-token step of the sub-lexers: with the cursor active
at `start`, extending `stop` to `e` and appending the token `[start, e)`
preserves the lexer invariant. -/
theorem lexInv_tok (s : Lexer) (h : LexInv s) (hact : s.stop = s.start)
    (e : Nat) (ty : TokenType) (nt : Option String) (d : List Diagnostic)
    (he : s.start < e) (hstart : s.start < s.text.length)
    (hbound : e ≤ s.text.length + 1)
    (hstr : e = s.text.length + 1 → ty = TokenType.LiteralString) :
    LexInv
      { s with
        stop := e, diagnostics := d,
        tokens := s.tokens ++
          [{ type := ty, lineNumber := s.lineNumber,
             start := s.start, stop := e, normText := nt }] } := by
  obtain ⟨hss, hsb, htok, hchain, hstop, hcov⟩ := h
  refine ⟨by dsimp only; omega, by dsimp only; omega, ?_, ?_, ?_, ?_⟩
  · intro t ht
    rcases List.mem_append.mp ht with h1 | h1
    · exact htok t h1
    · have := List.mem_singleton.mp h1
      subst this
      exact ⟨by dsimp only; omega, by dsimp only; omega,
             by dsimp only; omega, fun hh => hstr hh⟩
  · exact chain'_append_tok s.tokens _ hchain
      (fun u hu => by
        have := hstop u hu
        dsimp only
        omega)
  · intro t ht
    rcases List.mem_append.mp ht with h1 | h1
    · have := hstop t h1
      dsimp only
      omega
    · have := List.mem_singleton.mp h1
      subst this
      dsimp only
      omega
  · intro p hp hplen
    by_cases hcase : p < s.stop
    · rcases hcov p hcase hplen with h1 | h1
      · exact Or.inl (inTokenAt_append s.tokens _ p h1)
      · exact Or.inr h1
    · refine Or.inl ⟨_, List.mem_append.mpr (Or.inr (List.mem_singleton.mpr rfl)), ?_, ?_⟩
      · dsimp only
        omega
      · dsimp only at hp ⊢
        omega

theorem startLex_spec (s : Lexer) (h : LexInv s) :
    LexInv s.startLex ∧ s.startLex.isActive = true ∧
    s.startLex.text = s.text ∧ s.startLex.tokens = s.tokens ∧
    s.startLex.diagnostics = s.diagnostics ∧
    s.startLex.lineNumber = s.lineNumber ∧ s.stop ≤ s.startLex.stop := by
  obtain ⟨hss, hsb, htok, hchain, hstop, hcov⟩ := h
  unfold Lexer.startLex
  dsimp only
  split
  · rename_i hg
    constructor
    · refine ⟨le_refl _, ?_, htok, hchain, ?_, ?_⟩
      · have := countFrom_le s.text s.stop isJsSpace
        unfold spaceLenAt
        dsimp only
        omega
      · intro t ht
        have := hstop t ht
        dsimp only
        omega
      · intro p hp hplen
        dsimp only at hp
        by_cases hcase : p < s.stop
        · rcases hcov p hcase hplen with h1 | h1
          · exact Or.inl h1
          · exact Or.inr h1
        · obtain ⟨c, hc, hsp⟩ := countFrom_spec s.text s.stop isJsSpace
            (p - s.stop) (by unfold spaceLenAt at hp; omega)
          rw [Nat.add_sub_cancel' (by omega : s.stop ≤ p)] at hc
          exact Or.inr ⟨c, hc, hsp⟩
    · refine ⟨by simp [Lexer.isActive], rfl, rfl, rfl, rfl, ?_⟩
      dsimp only
      omega
  · rename_i hg
    exact ⟨⟨le_refl _, hsb, htok, hchain, hstop,
      fun p hp hplen => hcov p hp hplen⟩,
      by simp [Lexer.isActive], rfl, rfl, rfl, rfl, le_refl _⟩

theorem lexStringLiteral_skip (s : Lexer) (h : s.isActive = false) :
    lexStringLiteral s = s := by
  unfold lexStringLiteral
  rw [h]
  rfl

theorem lexOpcode_skip (s : Lexer) (h : s.isActive = false) :
    lexOpcode s = s := by
  unfold lexOpcode
  rw [h]
  rfl

theorem lexKeyword_skip (s : Lexer) (h : s.isActive = false) :
    lexKeyword s = s := by
  unfold lexKeyword
  rw [h]
  rfl

theorem lexOperator_skip (s : Lexer) (h : s.isActive = false) :
    lexOperator s = s := by
  unfold lexOperator
  rw [h]
  rfl

theorem lexName_skip (s : Lexer) (h : s.isActive = false) :
    lexName s = s := by
  unfold lexName
  rw [h]
  rfl

theorem lexNumber_skip (s : Lexer) (h : s.isActive = false) :
    lexNumber s = s := by
  unfold lexNumber
  rw [h]
  rfl

theorem lexOperator_fail_end (s : Lexer) (hs : s.text.length ≤ s.start) :
    lexOperator s = s := by
  unfold lexOperator
  split
  · rfl
  · have hfind : operators.find? (fun kw => matchOperatorAt kw s.text s.start)
        = none := by
      rw [List.find?_eq_none]
      intro kw hkw
      have hpos := operators_pos kw hkw
      unfold matchOperatorAt
      rw [List.drop_eq_nil_of_le hs]
      rcases hk : kw.data with _ | ⟨a, l⟩
      · exfalso
        have : kw.length = 0 := by
          have : kw.data.length = 0 := by rw [hk]; rfl
          exact this
        omega
      · simp [litPrefix]
    rw [hfind]

theorem lexName_fail_end (s : Lexer) (hs : s.text.length ≤ s.start) :
    lexName s = s := by
  unfold lexName
  split
  · rfl
  · have hml : nameMatchLen s.text s.start = none := by
      unfold nameMatchLen
      have hg : charAt s.text s.start = none := by
        rw [charAt, List.get?_eq_none]
        exact hs
      rw [hg]
    rw [hml]

theorem lexNumber_fail_end (s : Lexer) (hs : s.text.length ≤ s.start) :
    lexNumber s = s := by
  unfold lexNumber
  split
  · rfl
  · have hml : numberMatchLen s.text s.start = none := by
      unfold numberMatchLen
      have hg : charAt s.text s.start = none := by
        rw [charAt, List.get?_eq_none]
        exact hs
      rw [hg]
    rw [hml]

theorem lexLineComment_fire (u : Lexer) (h : LexInv u) (hact : u.stop = u.start)
    (hc : charAt u.text u.start = some ';') :
    LexFinal (lexLineComment u) ∧
    (lexLineComment u).stop = (lexLineComment u).text.length ∧
    (lexLineComment u).isActive = false := by
  obtain ⟨hss, hsb, htok, hchain, hstop, hcov⟩ := h
  have hlt := charAt_lt u.text u.start ';' hc
  unfold lexLineComment
  rw [if_pos hc]
  refine ⟨⟨hchain, htok, ?_⟩, rfl, ?_⟩
  · intro p hp hplen
    by_cases hcase : p < u.stop
    · exact tokSpaceCover_coverAt _ p (hcov p hcase hplen)
    · refine Or.inr (Or.inr (Or.inl ⟨u.start, by omega, hc, ?_⟩))
      intro t ht
      have := hstop t ht
      omega
  · simp only [Lexer.isActive]
    dsimp only
    simp only [decide_eq_false_iff_not]
    omega

theorem lexStringLiteral_fire (u : Lexer) (h : LexInv u)
    (hact : u.stop = u.start) (c : Char) (hc : charAt u.text u.start = some c)
    (hq : (c = '\'' || c = '"') = true) :
    LexInv (lexStringLiteral u) ∧ (lexStringLiteral u).isActive = false := by
  have hactb : u.isActive = true := by
    simp [Lexer.isActive, hact]
  have hstart := charAt_lt u.text u.start c hc
  have hb := lexStrLoop_bound u.text c (u.text.length + 1) (u.stop + 1) []
    (by omega)
  unfold lexStringLiteral
  rw [hactb, if_neg (show ¬((!true) = true) by decide)]
  simp only [hc]
  rw [if_pos hq]
  split
  · constructor
    · exact lexInv_tok u h hact
        (lexStrLoop u.text c (u.text.length + 1) (u.stop + 1) []).2.1
        TokenType.LiteralString
        (some (lexStrLoop u.text c (u.text.length + 1) (u.stop + 1) []).2.2.asString)
        u.diagnostics (by omega) hstart hb.2 (fun _ => rfl)
    · simp only [Lexer.isActive, Lexer.addToken, Lexer.addWarning,
        Lexer.addDiagnostic]
      simp only [decide_eq_false_iff_not]
      omega
  · constructor
    · exact lexInv_tok u h hact
        (lexStrLoop u.text c (u.text.length + 1) (u.stop + 1) []).2.1
        TokenType.LiteralString
        (some (lexStrLoop u.text c (u.text.length + 1) (u.stop + 1) []).2.2.asString)
        (u.diagnostics ++
          [{ severity := DiagnosticSeverity.Warning,
             range := { start := { line := u.lineNumber, character := u.start },
                        stop := { line := u.lineNumber,
                                  character :=
                                    (lexStrLoop u.text c (u.text.length + 1)
                                      (u.stop + 1) []).2.1 } },
             message := "Unterminated string literal goes to end of line" }])
        (by omega) hstart hb.2 (fun _ => rfl)
    · simp only [Lexer.isActive, Lexer.addToken, Lexer.addWarning,
        Lexer.addDiagnostic]
      simp only [decide_eq_false_iff_not]
      omega

theorem lexOpcode_fire (u : Lexer) (h : LexInv u) (hact : u.stop = u.start)
    (kw : String)
    (hfind : opcodes.find? (fun kw => matchKeywordAt kw u.text u.start)
      = some kw) :
    LexInv (lexOpcode u) ∧ (lexOpcode u).isActive = false := by
  have hactb : u.isActive = true := by
    simp [Lexer.isActive, hact]
  have hmatch : matchKeywordAt kw u.text u.start = true := by
    simpa using List.find?_some hfind
  have hmem : kw ∈ opcodes := List.mem_of_find?_eq_some hfind
  have hpos := opcodes_pos kw hmem
  have hbd := matchKeywordAt_bound kw u.text u.start hpos hmatch
  unfold lexOpcode
  rw [hactb, if_neg (show ¬((!true) = true) by decide), hfind]
  dsimp only
  constructor
  · exact lexInv_tok u h hact (u.start + kw.length) TokenType.Opcode
      (some kw) u.diagnostics (by omega) hbd.1 (by omega)
      (fun hh => absurd hh (by omega))
  · simp only [Lexer.isActive, Lexer.addToken]
    simp only [decide_eq_false_iff_not]
    omega

theorem lexOperator_fire (u : Lexer) (h : LexInv u) (hact : u.stop = u.start)
    (kw : String)
    (hfind : operators.find? (fun kw => matchOperatorAt kw u.text u.start)
      = some kw) :
    LexInv (lexOperator u) ∧ (lexOperator u).isActive = false := by
  have hactb : u.isActive = true := by
    simp [Lexer.isActive, hact]
  have hmatch : matchOperatorAt kw u.text u.start = true := by
    simpa using List.find?_some hfind
  have hmem : kw ∈ operators := List.mem_of_find?_eq_some hfind
  have hpos := operators_pos kw hmem
  have hbd := matchOperatorAt_bound kw u.text u.start hpos hmatch
  unfold lexOperator
  rw [hactb, if_neg (show ¬((!true) = true) by decide), hfind]
  dsimp only
  constructor
  · exact lexInv_tok u h hact (u.start + kw.length) TokenType.Operator
      (some kw) u.diagnostics (by omega) hbd.1 (by omega)
      (fun hh => absurd hh (by omega))
  · simp only [Lexer.isActive, Lexer.addToken]
    simp only [decide_eq_false_iff_not]
    omega

theorem lexName_fire (u : Lexer) (h : LexInv u) (hact : u.stop = u.start)
    (n : Nat) (hml : nameMatchLen u.text u.start = some n) :
    LexInv (lexName u) ∧ (lexName u).isActive = false := by
  have hactb : u.isActive = true := by
    simp [Lexer.isActive, hact]
  have hbd := nameMatchLen_bound u.text u.start n hml
  unfold lexName
  rw [hactb, if_neg (show ¬((!true) = true) by decide), hml]
  dsimp only
  constructor
  · exact lexInv_tok u h hact (u.start + n) TokenType.Name
      (some (subStr u.text u.start n)) u.diagnostics (by omega) hbd.2.1
      (by omega) (fun hh => absurd hh (by omega))
  · simp only [Lexer.isActive, Lexer.addToken]
    simp only [decide_eq_false_iff_not]
    omega

theorem lexNumber_fire (u : Lexer) (h : LexInv u) (hact : u.stop = u.start)
    (n : Nat) (hml : numberMatchLen u.text u.start = some n) :
    LexInv (lexNumber u) ∧ (lexNumber u).isActive = false := by
  have hactb : u.isActive = true := by
    simp [Lexer.isActive, hact]
  have hbd := numberMatchLen_bound u.text u.start n hml
  unfold lexNumber
  rw [hactb, if_neg (show ¬((!true) = true) by decide), hml]
  dsimp only
  constructor
  · exact lexInv_tok u h hact (u.start + n) TokenType.LiteralNumber
      none u.diagnostics (by omega) hbd.2.1
      (by omega) (fun hh => absurd hh (by omega))
  · simp only [Lexer.isActive, Lexer.addToken]
    simp only [decide_eq_false_iff_not]
    omega

/-- The two-token step of `lexKeyword` for `.bhex` / `#error`: the
keyword token `[start, e)` followed by the rest-of-line token
`[e, length)`. -/
theorem lexInv_tok2 (s : Lexer) (h : LexInv s) (hact : s.stop = s.start)
    (e : Nat) (ty : TokenType) (nt : Option String)
    (he : s.start < e) (hstart : s.start < s.text.length)
    (hbound : e ≤ s.text.length) :
    LexInv
      { s with
        start := e, stop := s.text.length,
        tokens := (s.tokens ++
          [{ type := ty, lineNumber := s.lineNumber,
             start := s.start, stop := e, normText := nt }]) ++
          [{ type := TokenType.RestOfLine, lineNumber := s.lineNumber,
             start := e, stop := s.text.length, normText := none }] } := by
  obtain ⟨hss, hsb, htok, hchain, hstop, hcov⟩ := h
  refine ⟨by dsimp only; omega, by dsimp only; omega, ?_, ?_, ?_, ?_⟩
  · intro t ht
    rcases List.mem_append.mp ht with h1 | h1
    · rcases List.mem_append.mp h1 with h2 | h2
      · exact htok t h2
      · have := List.mem_singleton.mp h2
        subst this
        exact ⟨by dsimp only; omega, by dsimp only; omega,
               by dsimp only; omega, fun hh => absurd hh (by dsimp only; omega)⟩
    · have := List.mem_singleton.mp h1
      subst this
      exact ⟨by dsimp only; omega, by dsimp only; omega,
             by dsimp only; omega, fun hh => absurd hh (by dsimp only; omega)⟩
  · refine chain'_append_tok _ _ (chain'_append_tok _ _ hchain ?_) ?_
    · intro x hx
      have := hstop x hx
      dsimp only
      omega
    · intro x hx
      rcases List.mem_append.mp hx with h2 | h2
      · have := hstop x h2
        dsimp only
        omega
      · have := List.mem_singleton.mp h2
        subst this
        dsimp only
        omega
  · intro t ht
    rcases List.mem_append.mp ht with h1 | h1
    · rcases List.mem_append.mp h1 with h2 | h2
      · have := hstop t h2
        dsimp only
        omega
      · have := List.mem_singleton.mp h2
        subst this
        dsimp only
        omega
    · have := List.mem_singleton.mp h1
      subst this
      dsimp only
      omega
  · intro p hp hplen
    dsimp only at hp hplen ⊢
    by_cases h1 : p < s.stop
    · rcases hcov p h1 hplen with hcase | hcase
      · exact Or.inl (inTokenAt_append _ _ p (inTokenAt_append _ _ p hcase))
      · exact Or.inr hcase
    · by_cases h2 : p < e
      · refine Or.inl ⟨_, List.mem_append.mpr (Or.inl (List.mem_append.mpr
          (Or.inr (List.mem_singleton.mpr rfl)))), ?_, ?_⟩
        · dsimp only
          omega
        · dsimp only
          omega
      · refine Or.inl ⟨_, List.mem_append.mpr
          (Or.inr (List.mem_singleton.mpr rfl)), ?_, ?_⟩
        · dsimp only
          omega
        · dsimp only
          omega

theorem lexKeyword_fire (u : Lexer) (h : LexInv u) (hact : u.stop = u.start)
    (kw : String)
    (hfind : keywords.find? (fun kw => matchKeywordAt kw u.text u.start)
      = some kw) :
    LexInv (lexKeyword u) ∧
    ((lexKeyword u).isActive = false ∨
      (lexKeyword u).text.length ≤ (lexKeyword u).start) := by
  have hactb : u.isActive = true := by
    simp [Lexer.isActive, hact]
  have hmatch : matchKeywordAt kw u.text u.start = true := by
    simpa using List.find?_some hfind
  have hmem : kw ∈ keywords := List.mem_of_find?_eq_some hfind
  have hpos := keywords_pos kw hmem
  have hbd := matchKeywordAt_bound kw u.text u.start hpos hmatch
  unfold lexKeyword
  rw [hactb, if_neg (show ¬((!true) = true) by decide), hfind]
  dsimp only
  split
  · constructor
    · exact lexInv_tok2 u h hact (u.start + kw.length) TokenType.Keyword
        (some kw) (by omega) hbd.1 hbd.2
    · by_cases hcase : u.start + kw.length < u.text.length
      · refine Or.inl ?_
        simp only [Lexer.isActive, Lexer.addToken]
        simp only [decide_eq_false_iff_not]
        omega
      · refine Or.inr ?_
        simp only [Lexer.addToken]
        omega
  · constructor
    · exact lexInv_tok u h hact (u.start + kw.length) TokenType.Keyword
        (some kw) u.diagnostics (by omega) hbd.1 (by omega)
        (fun hh => absurd hh (by omega))
    · refine Or.inl ?_
      simp only [Lexer.isActive, Lexer.addToken]
      simp only [decide_eq_false_iff_not]
      omega

theorem lexStep_spec (s : Lexer) (h : LexInv s) :
    LexInv (lexStep s) ∨
    (LexFinal (lexStep s) ∧
      (lexStep s).stop = (lexStep s).text.length ∧
      (lexStep s).isActive = false) := by
  unfold lexStep
  obtain ⟨h0, hact0, -, -, -, -, -⟩ := startLex_spec s h
  set u := s.startLex with hu
  have hact0' : u.stop = u.start := by
    simpa [Lexer.isActive] using hact0
  by_cases hsemi : charAt u.text u.start = some ';'
  · right
    obtain ⟨hf, hstop, hinact⟩ := lexLineComment_fire u h0 hact0' hsemi
    set v := lexLineComment u with hv
    rw [lexStringLiteral_skip v hinact, lexOpcode_skip v hinact,
        lexKeyword_skip v hinact, lexOperator_skip v hinact,
        lexName_skip v hinact, lexNumber_skip v hinact]
    exact ⟨hf, hstop, hinact⟩
  · have hcomment : lexLineComment u = u := by
      unfold lexLineComment
      rw [if_neg hsemi]
    rw [hcomment]
    have hquote :
        lexStringLiteral u = u ∨
        (LexInv (lexStringLiteral u) ∧ (lexStringLiteral u).isActive = false) := by
      rcases hch : charAt u.text u.start with _ | c
      · refine Or.inl ?_
        unfold lexStringLiteral
        rw [hact0, if_neg (show ¬((!true) = true) by decide)]
        simp only [hch]
      · by_cases hq : (c = '\'' || c = '"') = true
        · exact Or.inr (lexStringLiteral_fire u h0 hact0' c hch hq)
        · refine Or.inl ?_
          unfold lexStringLiteral
          rw [hact0, if_neg (show ¬((!true) = true) by decide)]
          simp only [hch]
          rw [if_neg hq]
    rcases hquote with hsl | ⟨hsl1, hsl2⟩
    · rw [hsl]
      rcases hfo : opcodes.find? (fun kw => matchKeywordAt kw u.text u.start)
        with _ | kw
      · have hop : lexOpcode u = u := by
          unfold lexOpcode
          rw [hact0, if_neg (show ¬((!true) = true) by decide), hfo]
        rw [hop]
        rcases hfk : keywords.find?
            (fun kw => matchKeywordAt kw u.text u.start) with _ | kw
        · have hkw : lexKeyword u = u := by
            unfold lexKeyword
            rw [hact0, if_neg (show ¬((!true) = true) by decide), hfk]
          rw [hkw]
          rcases hfp : operators.find?
              (fun kw => matchOperatorAt kw u.text u.start) with _ | kw
          · have hopr : lexOperator u = u := by
              unfold lexOperator
              rw [hact0, if_neg (show ¬((!true) = true) by decide), hfp]
            rw [hopr]
            rcases hnm : nameMatchLen u.text u.start with _ | n
            · have hnam : lexName u = u := by
                unfold lexName
                rw [hact0, if_neg (show ¬((!true) = true) by decide), hnm]
              rw [hnam]
              rcases hnum : numberMatchLen u.text u.start with _ | n
              · have hnb : lexNumber u = u := by
                  unfold lexNumber
                  rw [hact0, if_neg (show ¬((!true) = true) by decide), hnum]
                rw [hnb]
                exact Or.inl h0
              · obtain ⟨hn1, hn2⟩ := lexNumber_fire u h0 hact0' n hnum
                exact Or.inl hn1
            · obtain ⟨hn1, hn2⟩ := lexName_fire u h0 hact0' n hnm
              rw [lexNumber_skip _ hn2]
              exact Or.inl hn1
          · obtain ⟨hn1, hn2⟩ := lexOperator_fire u h0 hact0' kw hfp
            rw [lexName_skip _ hn2, lexNumber_skip _ hn2]
            exact Or.inl hn1
        · obtain ⟨hn1, hn2⟩ := lexKeyword_fire u h0 hact0' kw hfk
          rcases hn2 with hn2 | hn2
          · rw [lexOperator_skip _ hn2, lexName_skip _ hn2,
                lexNumber_skip _ hn2]
            exact Or.inl hn1
          · rw [lexOperator_fail_end _ hn2, lexName_fail_end _ hn2,
                lexNumber_fail_end _ hn2]
            exact Or.inl hn1
      · obtain ⟨hn1, hn2⟩ := lexOpcode_fire u h0 hact0' kw hfo
        rw [lexKeyword_skip _ hn2, lexOperator_skip _ hn2,
            lexName_skip _ hn2, lexNumber_skip _ hn2]
        exact Or.inl hn1
    · rw [lexOpcode_skip _ hsl2, lexKeyword_skip _ hsl2,
          lexOperator_skip _ hsl2, lexName_skip _ hsl2,
          lexNumber_skip _ hsl2]
      exact Or.inl hsl1

theorem lexFinal_addError (s : Lexer) (m : String) (h : LexFinal s) :
    LexFinal (s.addError m) := h

theorem lexLoop_isDone (fuel : Nat) (s : Lexer) (h : s.isDone = true) :
    lexLoop fuel s = s := by
  cases fuel with
  | zero => rfl
  | succ m =>
    unfold lexLoop
    rw [h]
    rfl

theorem lexLoop_final (fuel : Nat) : ∀ s : Lexer, LexInv s →
    LexFinal (lexLoop fuel s) := by
  induction fuel with
  | zero => exact fun s h => lexInv_final s h
  | succ m ih =>
    intro s h
    unfold lexLoop
    split
    · exact lexInv_final s h
    · dsimp only
      rcases lexStep_spec s h with h1 | ⟨h1, h2, h3⟩
      · split
        · exact lexFinal_addError _ _ (lexInv_final _ h1)
        · exact ih _ h1
      · split
        · rename_i hactive
          rw [h3] at hactive
          cases hactive
        · rw [lexLoop_isDone m _ (by simp [Lexer.isDone, h2])]
          exact h1

theorem startLex_text (s : Lexer) : s.startLex.text = s.text := by
  unfold Lexer.startLex
  dsimp only
  split <;> rfl

theorem lexLineComment_text (s : Lexer) :
    (lexLineComment s).text = s.text := by
  unfold lexLineComment
  split <;> rfl

theorem lexStringLiteral_text (s : Lexer) :
    (lexStringLiteral s).text = s.text := by
  unfold lexStringLiteral
  split
  · rfl
  · split
    · split
      · dsimp only
        split <;> rfl
      · rfl
    · rfl

theorem lexOpcode_text (s : Lexer) : (lexOpcode s).text = s.text := by
  unfold lexOpcode
  split
  · rfl
  · split <;> rfl

theorem lexKeyword_text (s : Lexer) : (lexKeyword s).text = s.text := by
  unfold lexKeyword
  split
  · rfl
  · split
    · rfl
    · dsimp only
      split <;> rfl

theorem lexOperator_text (s : Lexer) : (lexOperator s).text = s.text := by
  unfold lexOperator
  split
  · rfl
  · split <;> rfl

theorem lexName_text (s : Lexer) : (lexName s).text = s.text := by
  unfold lexName
  split
  · rfl
  · split <;> rfl

theorem lexNumber_text (s : Lexer) : (lexNumber s).text = s.text := by
  unfold lexNumber
  split
  · rfl
  · split <;> rfl

theorem lexStep_text (s : Lexer) : (lexStep s).text = s.text := by
  unfold lexStep
  rw [lexNumber_text, lexName_text, lexOperator_text, lexKeyword_text,
      lexOpcode_text, lexStringLiteral_text, lexLineComment_text,
      startLex_text]

theorem addError_text (u : Lexer) (m : String) :
    (u.addError m).text = u.text := rfl

theorem lexLoop_text (fuel : Nat) : ∀ s : Lexer,
    (lexLoop fuel s).text = s.text := by
  induction fuel with
  | zero => exact fun s => rfl
  | succ m ih =>
    intro s
    unfold lexLoop
    split
    · rfl
    · dsimp only
      split
      · rw [addError_text, lexStep_text]
      · rw [ih, lexStep_text]

theorem lexStarComment_text (s : Lexer) :
    (lexStarComment s).text = s.text := by
  unfold lexStarComment
  split <;> rfl

theorem lexLineState_text (text : List Char) (n : Nat) :
    (lexLineState text n).text = text := by
  unfold lexLineState
  dsimp only
  rw [lexLoop_text, lexStarComment_text, startLex_text]

theorem lexFinal_star (a : Lexer) (hA : a.tokens = [])
    (hstar : starCommentMatches a.text = true) :
    LexFinal { a with stop := a.text.length } := by
  refine ⟨?_, ?_, ?_⟩
  · dsimp only
    rw [hA]
    exact List.chain'_nil
  · intro t ht
    dsimp only at ht
    rw [hA] at ht
    cases ht
  · intro p hp hq
    refine Or.inr (Or.inr (Or.inr ⟨?_, ?_⟩))
    · dsimp only
      exact hstar
    · dsimp only
      exact hA

theorem lexLineState_final (text : List Char) (n : Nat) :
    LexFinal (lexLineState text n) := by
  unfold lexLineState
  dsimp only
  have hInv0 : LexInv
      { text := text, lineNumber := n, start := 0, stop := 0,
        tokens := [], diagnostics := [] } := by
    refine ⟨le_refl 0, by dsimp only; omega, ?_, List.chain'_nil, ?_, ?_⟩
    · intro t ht; cases ht
    · intro t ht; cases ht
    · intro p hp hq
      dsimp only at hp
      omega
  obtain ⟨h1, hact1, htext1, htok1, hdiag1, hline1, hstople⟩ :=
    startLex_spec _ hInv0
  by_cases hstar : starCommentMatches text = true
  · have hcond : starCommentMatches
        ({ text := text, lineNumber := n, start := 0, stop := 0,
           tokens := [], diagnostics := [] } : Lexer).startLex.text = true := by
      rw [htext1]; exact hstar
    unfold lexStarComment
    rw [if_pos hcond]
    rw [lexLoop_isDone _ _ (by simp [Lexer.isDone])]
    exact lexFinal_star _ (by rw [htok1]) hcond
  · have hcond : ¬ starCommentMatches
        ({ text := text, lineNumber := n, start := 0, stop := 0,
           tokens := [], diagnostics := [] } : Lexer).startLex.text = true := by
      rw [htext1]; exact hstar
    unfold lexStarComment
    rw [if_neg hcond]
    exact lexLoop_final _ _ h1

/-- C6 (amended): the tokens of `lexLine` are produced left-to-right
with non-overlapping spans, every token satisfies
`start ≤ stop ≤ length + 1` with `start ≤ length`, where
`stop = length + 1` occurs only for the string token of an unterminated
literal whose final character is consumed as a backslash escape; and
every position below the halting point of the lexer is accounted for by
a token span, skipped whitespace, a `;` line-comment suffix, or a
whole-line star comment. -/
theorem lexLine_tiling (text : List Char) (n : Nat) :
    List.Chain' (fun a b => a.stop ≤ b.start) (lexLine text n).tokens ∧
    (∀ t ∈ (lexLine text n).tokens,
      t.start ≤ t.stop ∧ t.start ≤ text.length ∧ t.stop ≤ text.length + 1 ∧
      (t.stop = text.length + 1 → t.type = TokenType.LiteralString)) ∧
    (∀ p, p < (lexLineState text n).stop → p < text.length →
      coverAt (lexLineState text n) p) := by
  have hfin := lexLineState_final text n
  have htext := lexLineState_text text n
  refine ⟨hfin.1, ?_, ?_⟩
  · intro t ht
    have hb := hfin.2.1 t ht
    rw [htext] at hb
    exact hb
  · intro p hp hq
    refine hfin.2.2 p hp ?_
    rw [htext]
    exact hq

set_option maxRecDepth 1000000 in
theorem lexLine_tiling_witness : coverAt (lexLineState "lda #7".data 0) 1 :=
  (lexLine_tiling "lda #7".data 0).2.2 1 (by decide) (by decide)
